import Mathlib

/-!
Verification development for the URL Content Analyzer & Summarizer
(a Cloudflare Workers service: src/index.ts, src/db/schema.ts).

The TypeScript source is shallowly embedded below:
 - `extractContent` embeds the regex-based HTML extractor (src/index.ts lines 19-62);
   each JavaScript regex is translated to an executable function implementing the
   engine's leftmost-match, greedy/lazy backtracking semantics for that pattern.
 - `generateSummary` embeds the summarizer (lines 65-111); the external model call is
   an oracle (`Except Unit (Option String)`): `.error` models a thrown model call,
   `.ok r` models a response whose `.response` field is `r`.
 - The D1/drizzle store is a `Store` of rows; the schema-level UNIQUE constraint on
   `analyzed_urls.url` (src/db/schema.ts line 7) makes `insertRecord` fail on a
   duplicate url.
 - `analyzeUrl` embeds the pipeline (lines 114-227) as a state-passing function that
   also records outbound effects (fetch / model / email / callback calls).
Strings are modelled as `List Char` internally; JavaScript UTF-16 indexing agrees
with codepoint indexing on the ASCII inputs considered here.
-/

namespace ArticleSummarizer

/-! ## Character and string helpers -/

/-- ASCII lowercase, used for the `i` (case-insensitive) regex flag. -/
def lowerChar (c : Char) : Char :=
  if 'A' ≤ c ∧ c ≤ 'Z' then Char.ofNat (c.toNat + 32) else c

/-- Case-insensitive character equality (regex `i` flag). -/
def eqCI (a b : Char) : Bool := lowerChar a == lowerChar b

/-- JavaScript whitespace class `\s` restricted to ASCII. -/
def isSpaceJS (c : Char) : Bool :=
  c == ' ' || c == '\t' || c == '\n' || c == '\r' || c == '\x0b' || c == '\x0c'

/-- Does `cs` start with the literal `pat` (case-sensitive)? -/
def leadsWith : List Char → List Char → Bool
  | [], _ => true
  | _ :: _, [] => false
  | p :: ps, c :: cs => p == c && leadsWith ps cs

/-- Does `cs` start with the literal `pat`, case-insensitively? -/
def leadsWithCI : List Char → List Char → Bool
  | [], _ => true
  | _ :: _, [] => false
  | p :: ps, c :: cs => eqCI p c && leadsWithCI ps cs

/-- Leftmost case-sensitive occurrence of `pat`: returns `(before, fromMatch)`. -/
def splitSub (pat : List Char) : List Char → Option (List Char × List Char)
  | [] => if leadsWith pat [] then some ([], []) else none
  | c :: cs =>
    if leadsWith pat (c :: cs) then some ([], c :: cs)
    else
      match splitSub pat cs with
      | some (b, r) => some (c :: b, r)
      | none => none

/-- Leftmost case-insensitive occurrence of `pat`: returns `(before, fromMatch)`. -/
def splitSubCI (pat : List Char) : List Char → Option (List Char × List Char)
  | [] => if leadsWithCI pat [] then some ([], []) else none
  | c :: cs =>
    if leadsWithCI pat (c :: cs) then some ([], c :: cs)
    else
      match splitSubCI pat cs with
      | some (b, r) => some (c :: b, r)
      | none => none

/-- Case-sensitive substring test (JavaScript `String.prototype.includes`). -/
def containsSub (pat cs : List Char) : Bool := (splitSub pat cs).isSome

/-- Case-insensitive substring test. -/
def containsSubCI (pat cs : List Char) : Bool := (splitSubCI pat cs).isSome

/-- JavaScript `url.includes(needle)` on `String`. -/
def containsSubStr (s needle : String) : Bool := containsSub needle.toList s.toList

/-- Consume regex `[^>]*>`: succeeds iff a `>` occurs, returning the suffix after it.
`[^>]*` cannot cross a `>`, so it deterministically stops at the first `>`. -/
def afterTagOpen (rest : List Char) : Option (List Char) :=
  match rest.dropWhile (fun c => c != '>') with
  | '>' :: tail => some tail
  | _ => none

/-- JavaScript `String.prototype.trim` (whitespace at both ends). -/
def trimJS (cs : List Char) : List Char :=
  ((cs.dropWhile isSpaceJS).reverse.dropWhile isSpaceJS).reverse

/-! ## The title regex: `/<title[^>]*>([^<]+)<\/title>/i` -/

/-- Match of the title pattern anchored at `cs`; returns the `([^<]+)` capture.
`[^<]+` stops at the first `<`, where the literal `</title>` must follow. -/
def titleAt (cs : List Char) : Option (List Char) :=
  if leadsWithCI "<title".toList cs then
    match afterTagOpen (cs.drop 6) with
    | none => none
    | some tail =>
      let b := tail.takeWhile (fun c => c != '<')
      if b.isEmpty then none
      else if leadsWithCI "</title>".toList (tail.drop b.length) then some b
      else none
  else none

/-- Leftmost match of the title pattern (the regex engine advances the start
position until the pattern matches). -/
def matchTitle : List Char → Option (List Char)
  | [] => none
  | c :: cs =>
    match titleAt (c :: cs) with
    | some t => some t
    | none => matchTitle cs

/-! ## Block patterns: `/<TAG[^>]*>[\s\S]*?<\/TAG>/gi`
Used for `<script>`/`<style>` stripping (full match removed) and for the
`<article>`, `<main>`, `<body>` content patterns (full match kept). -/

/-- Match of the block pattern for `tag` anchored at `cs`; returns `matches[0]`
(the full match, original casing). The lazy `[\s\S]*?` stops at the first
closing tag. -/
def tagBlockAt (tag : List Char) (cs : List Char) : Option (List Char) :=
  if leadsWithCI ('<' :: tag) cs then
    match afterTagOpen (cs.drop (tag.length + 1)) with
    | none => none
    | some inner =>
      match splitSubCI ('<' :: '/' :: (tag ++ ['>'])) inner with
      | none => none
      | some (mid, _) =>
        some (cs.take (cs.length - inner.length + mid.length + (tag.length + 3)))
  else none

/-- Leftmost full match of the block pattern for `tag`. -/
def matchTagBlock (tag : List Char) : List Char → Option (List Char)
  | [] => none
  | c :: cs =>
    match tagBlockAt tag (c :: cs) with
    | some m => some m
    | none => matchTagBlock tag cs

/-- Suffix after a block match anchored at `cs` (for global replacement). -/
def matchBlockAt (tag : List Char) (cs : List Char) : Option (List Char) :=
  match tagBlockAt tag cs with
  | some m => some (cs.drop m.length)
  | none => none

/-- Global removal of `tag` blocks (`.replace(/<TAG...>...<\/TAG>/gi, "")`):
scan left to right, deleting each non-overlapping match.  Fuel bounds the
recursion; `length + 1` fuel always suffices since every step consumes input. -/
def stripBlocksAux (tag : List Char) : Nat → List Char → List Char
  | 0, cs => cs
  | _ + 1, [] => []
  | fuel + 1, c :: cs =>
    match matchBlockAt tag (c :: cs) with
    | some rest => stripBlocksAux tag fuel rest
    | none => c :: stripBlocksAux tag fuel cs

/-- Remove all `<tag ...>...</tag>` blocks from `cs`. -/
def stripBlocks (tag : List Char) (cs : List Char) : List Char :=
  stripBlocksAux tag (cs.length + 1) cs

/-! ## The div/class patterns:
`/<div[^>]*class="[^"]*WORD[^"]*"[^>]*>([\s\S]*?)<\/div>/gi`
The greedy `[^>]*` before `class="` backtracks from its maximal extent, so
candidate positions for `class="` are tried from rightmost to leftmost. -/

/-- The literal `class="`. -/
def classLit : List Char := "class=".toList ++ ['"']

/-- Attempt the tail of the div/class pattern with `class="` placed `j`
characters into `rest` (the text after the opening tag name).  Returns the
total matched length within `rest`, through the end of `closeLit`. -/
def classAttrAt (word closeLit rest : List Char) (j : Nat) : Option Nat :=
  if (rest.take j).all (fun c => c != '>') && leadsWithCI classLit (rest.drop j) then
    let afterQ := rest.drop (j + 7)
    let qseg := afterQ.takeWhile (fun c => c != '"')
    match afterQ.drop qseg.length with
    | '"' :: afterClose =>
      if containsSubCI word qseg then
        match afterTagOpen afterClose with
        | some innerStart =>
          match splitSubCI closeLit innerStart with
          | some (mid, _) =>
            some (rest.length - innerStart.length + mid.length + closeLit.length)
          | none => none
        | none => none
      else none
    | _ => none
  else none

/-- Greedy backtracking over the position of `class="`: try `j` descending. -/
def classAttrSearch (word closeLit rest : List Char) : Nat → Option Nat
  | 0 => classAttrAt word closeLit rest 0
  | j + 1 =>
    match classAttrAt word closeLit rest (j + 1) with
    | some n => some n
    | none => classAttrSearch word closeLit rest j

/-- Match of the div/class pattern anchored at `cs` (full match). -/
def divClassAt (word : List Char) (cs : List Char) : Option (List Char) :=
  if leadsWithCI "<div".toList cs then
    let rest := cs.drop 4
    let j0 := (rest.takeWhile (fun c => c != '>')).length
    match classAttrSearch word ("</div>".toList) rest j0 with
    | some n => some (cs.take (4 + n))
    | none => none
  else none

/-- Leftmost full match of the div/class pattern. -/
def matchDivClass (word : List Char) : List Char → Option (List Char)
  | [] => none
  | c :: cs =>
    match divClassAt word (c :: cs) with
    | some m => some m
    | none => matchDivClass word cs

/-! ## Remaining cleanup passes -/

/-- `.replace(/<[^>]+>/g, " ")`: each `<`, at least one non-`>`, `>` becomes a
single space; unmatched `<` is kept. -/
def stripTagsAux : Nat → List Char → List Char
  | 0, cs => cs
  | _ + 1, [] => []
  | fuel + 1, c :: cs =>
    if c = '<' then
      let a := cs.takeWhile (fun x => x != '>')
      if a.isEmpty then c :: stripTagsAux fuel cs
      else
        match cs.drop a.length with
        | '>' :: rest => ' ' :: stripTagsAux fuel rest
        | _ => c :: stripTagsAux fuel cs
    else c :: stripTagsAux fuel cs

/-- Replace every `<[^>]+>` group with a single space. -/
def stripTagsAll (cs : List Char) : List Char := stripTagsAux (cs.length + 1) cs

/-- `.replace(/\s+/g, " ")`: collapse every whitespace run to one space.  The
boolean tracks whether the previous character was part of a run. -/
def collapseWsAux : Bool → List Char → List Char
  | _, [] => []
  | inRun, c :: cs =>
    if isSpaceJS c then
      if inRun then collapseWsAux true cs else ' ' :: collapseWsAux true cs
    else c :: collapseWsAux false cs

/-- Collapse whitespace runs to single spaces. -/
def collapseWs (cs : List Char) : List Char := collapseWsAux false cs

/-- Global literal replacement (`.replace(/LIT/g, rep)` for the entity passes). -/
def replaceSubAux (pat rep : List Char) : Nat → List Char → List Char
  | 0, cs => cs
  | _ + 1, [] => []
  | fuel + 1, c :: cs =>
    if leadsWith pat (c :: cs) && !pat.isEmpty then
      rep ++ replaceSubAux pat rep fuel ((c :: cs).drop pat.length)
    else c :: replaceSubAux pat rep fuel cs

/-- Replace all occurrences of the literal `pat` by `rep`. -/
def replaceSubAll (pat rep : List Char) (cs : List Char) : List Char :=
  replaceSubAux pat rep (cs.length + 1) cs

/-- Tokens of `content.split(/\s+/).filter(w => w.length > 0)`: the nonempty
maximal runs of non-whitespace characters (the filter drops the empty pieces
a leading separator produces). -/
def wordTokensAux (cur : List Char) : List Char → List (List Char)
  | [] => if cur.isEmpty then [] else [cur.reverse]
  | c :: cs =>
    if isSpaceJS c then
      if cur.isEmpty then wordTokensAux [] cs else cur.reverse :: wordTokensAux [] cs
    else wordTokensAux (c :: cur) cs

/-- Whitespace-delimited nonempty tokens. -/
def wordTokens (cs : List Char) : List (List Char) := wordTokensAux [] cs

/-! ## extractContent (src/index.ts lines 19-62) -/

/-- Result of content extraction. -/
structure Extracted where
  title : String
  content : String
  wordCount : Nat
deriving DecidableEq, Repr

/-- The content-pattern array of src/index.ts lines 29-35, applied to the
script/style-stripped markup: each entry is `cleanHtml.match(pattern)` with
`matches[0]` (or `none` when the pattern does not occur). -/
def contentMatchers (cleanHtml : List Char) : List (Option (List Char)) :=
  [matchTagBlock "article".toList cleanHtml,
   matchTagBlock "main".toList cleanHtml,
   matchDivClass "content".toList cleanHtml,
   matchDivClass "post".toList cleanHtml,
   matchTagBlock "body".toList cleanHtml]

/-- The for-loop of lines 37-44: take the first truthy `matches[0]` and break. -/
def pickFirst : List (Option (List Char)) → List Char
  | [] => []
  | o :: rest =>
    match o with
    | some m => if m.isEmpty then pickFirst rest else m
    | none => pickFirst rest

/-- Region selection including the line 46-48 fallback to the whole cleaned
document when no pattern matched. -/
def selectedRegion (cleanHtml : List Char) : List Char :=
  let content := pickFirst (contentMatchers cleanHtml)
  if content.isEmpty then cleanHtml else content

/-- `extractContent` of src/index.ts lines 19-62: title from the first
`<title>` element of the raw markup, script/style blocks removed, a content
region selected by the pattern loop, tags stripped, whitespace collapsed, the
four entities decoded, the result trimmed and word-counted. -/
def extractContent (html : String) : Extracted :=
  let hl := html.toList
  let title :=
    match matchTitle hl with
    | some t => String.mk (trimJS t)
    | none => ""
  let clean1 := stripBlocks "script".toList hl
  let cleanHtml := stripBlocks "style".toList clean1
  let region := selectedRegion cleanHtml
  let c1 := stripTagsAll region
  let c2 := collapseWs c1
  let c3 := replaceSubAll "&nbsp;".toList " ".toList c2
  let c4 := replaceSubAll "&amp;".toList "&".toList c3
  let c5 := replaceSubAll "&lt;".toList "<".toList c4
  let c6 := replaceSubAll "&gt;".toList ">".toList c5
  let contentL := trimJS c6
  { title := title, content := String.mk contentL, wordCount := (wordTokens contentL).length }

/-! ## Spec-side extractor variant (for comparison with the source)

The spec's §4.1 step 3 says the third and fourth patterns match "any element
whose class attribute contains" the word; the source restricts them to `<div>`
elements.  The following definitions follow the spec's words and differ from
the source only in that generalisation. -/

/-- ASCII letter, for parsing an element name. -/
def isAsciiLetter (c : Char) : Bool :=
  ('a' ≤ c && c ≤ 'z') || ('A' ≤ c && c ≤ 'Z')

/-- Modelled from the spec: match, anchored at `cs`, of "any element whose
class attribute contains `word`" — like `divClassAt` but with an arbitrary
element name instead of the literal `div`. -/
def elemClassAt (word : List Char) (cs : List Char) : Option (List Char) :=
  match cs with
  | '<' :: rest0 =>
    let name := rest0.takeWhile isAsciiLetter
    if name.isEmpty then none
    else
      let rest := rest0.drop name.length
      let j0 := (rest.takeWhile (fun c => c != '>')).length
      match classAttrSearch word ('<' :: '/' :: (name ++ ['>'])) rest j0 with
      | some n => some (cs.take (1 + name.length + n))
      | none => none
  | _ => none

/-- Modelled from the spec: leftmost match of the any-element class pattern. -/
def matchElemClass (word : List Char) : List Char → Option (List Char)
  | [] => none
  | c :: cs =>
    match elemClassAt word (c :: cs) with
    | some m => some m
    | none => matchElemClass word cs

/-- Modelled from the spec: the §4.1 priority list with "any element whose
class attribute contains" content/post in the third and fourth slots. -/
def contentMatchersSpec (cleanHtml : List Char) : List (Option (List Char)) :=
  [matchTagBlock "article".toList cleanHtml,
   matchTagBlock "main".toList cleanHtml,
   matchElemClass "content".toList cleanHtml,
   matchElemClass "post".toList cleanHtml,
   matchTagBlock "body".toList cleanHtml]

/-- Modelled from the spec: region selection per §4.1 step 3. -/
def selectedRegionSpec (cleanHtml : List Char) : List Char :=
  let content := pickFirst (contentMatchersSpec cleanHtml)
  if content.isEmpty then cleanHtml else content

/-- Modelled from the spec: `extractContent` as §4.1 describes it, identical to
the source embedding except for the any-element class patterns. -/
def extractContentSpec (html : String) : Extracted :=
  let hl := html.toList
  let title :=
    match matchTitle hl with
    | some t => String.mk (trimJS t)
    | none => ""
  let clean1 := stripBlocks "script".toList hl
  let cleanHtml := stripBlocks "style".toList clean1
  let region := selectedRegionSpec cleanHtml
  let c1 := stripTagsAll region
  let c2 := collapseWs c1
  let c3 := replaceSubAll "&nbsp;".toList " ".toList c2
  let c4 := replaceSubAll "&amp;".toList "&".toList c3
  let c5 := replaceSubAll "&lt;".toList "<".toList c4
  let c6 := replaceSubAll "&gt;".toList ">".toList c5
  let contentL := trimJS c6
  { title := title, content := String.mk contentL, wordCount := (wordTokens contentL).length }

/-! ## generateSummary (src/index.ts lines 65-111) -/

/-- Summarizer output. -/
structure SummaryResult where
  summary : String
  tags : List String
deriving DecidableEq, Repr

/-- The length-instruction lookup (lines 66-72): unknown keys and an omitted
argument both fall back to the medium instruction.  Feeds only the model
prompt, which the oracle abstracts. -/
def lengthInstruction (summaryLength : Option String) : String :=
  match summaryLength with
  | some "short" => "in 2-3 sentences"
  | some "medium" => "in 1-2 paragraphs"
  | some "long" => "in 3-4 paragraphs with detailed analysis"
  | _ => "in 1-2 paragraphs"

/-- Capture of `/SUMMARY:\s*(.*?)(?=TAGS:|$)/s`: after the first `SUMMARY:` and
its whitespace run, the lazy capture stops at the first following `TAGS:` or at
the end of the text. -/
def matchSummaryCapture (result : List Char) : Option (List Char) :=
  match splitSub "SUMMARY:".toList result with
  | none => none
  | some (_, atM) =>
    let after := (atM.drop 8).dropWhile isSpaceJS
    match splitSub "TAGS:".toList after with
    | some (before, _) => some before
    | none => some after

/-- Capture of `/TAGS:\s*(.*?)$/s`: everything after the first `TAGS:` and its
whitespace run (an end-anchored lazy capture extends to the end). -/
def matchTagsCapture (result : List Char) : Option (List Char) :=
  match splitSub "TAGS:".toList result with
  | none => none
  | some (_, atM) => some ((atM.drop 5).dropWhile isSpaceJS)

/-- `tagsString.split(",")` — literal comma split, keeping empty pieces. -/
def splitOnCommaAux (cur : List Char) : List Char → List (List Char)
  | [] => [cur.reverse]
  | c :: cs =>
    if c = ',' then cur.reverse :: splitOnCommaAux [] cs
    else splitOnCommaAux (c :: cur) cs

/-- Split a character list on commas. -/
def splitOnComma (cs : List Char) : List (List Char) := splitOnCommaAux [] cs

/-- `generateSummary` (lines 65-111).  `ai` is the model oracle: `.error ()`
models the `ai.run` call throwing, `.ok r` a response whose `.response` field
is `r` (`none` models an absent field, which `|| ""` turns into the empty
string).  A thrown call is caught and degraded to a 300-character truncation
of the content with an ellipsis marker and no tags; the function never fails. -/
def generateSummary (content : String) (ai : Except Unit (Option String))
    (summaryLength : Option String) : SummaryResult :=
  match ai with
  | .error _ =>
    { summary :=
        if content.length > 300 then String.mk (content.toList.take 300) ++ "..." else content,
      tags := [] }
  | .ok respField =>
    let result := (respField.getD "").toList
    let summary :=
      match matchSummaryCapture result with
      | some cap => String.mk (trimJS cap)
      | none => String.mk (result.take 300)
    let tagsString :=
      match matchTagsCapture result with
      | some cap => trimJS cap
      | none => []
    let tags := (((splitOnComma tagsString).map trimJS).filter (fun t => !t.isEmpty)).take 5
    { summary := summary, tags := tags.map String.mk }

/-! ## The store (src/db/schema.ts) -/

/-- The `status` column enum (schema.ts line 13). -/
inductive Status
  | pending
  | completed
  | failed
deriving DecidableEq, Repr

/-- A row of `analyzed_urls` (schema.ts lines 5-24).  Timestamps are the
caller-supplied ISO strings; `confidence` REAL values are modelled as
rationals. -/
structure Record where
  id : Nat
  url : String
  title : Option String := none
  content : Option String := none
  summary : Option String := none
  wordCount : Option Nat := none
  analysisDate : Option String := none
  status : Status
  errorMessage : Option String := none
  contentType : Option String := none
  language : Option String := none
  createdAt : String
  updatedAt : String
deriving DecidableEq, Repr

/-- A row of `content_tags` (schema.ts lines 26-36). -/
structure TagRow where
  id : Nat
  urlId : Nat
  tag : String
  confidence : Option ℚ := none
  createdAt : String
deriving DecidableEq, Repr

/-- The D1 database: both tables plus autoincrement counters. -/
structure Store where
  records : List Record
  tags : List TagRow
  nextId : Nat
  nextTagId : Nat
deriving DecidableEq, Repr

/-- The empty database. -/
def store0 : Store := { records := [], tags := [], nextId := 1, nextTagId := 1 }

/-- `db.select().from(analyzedUrls).where(eq(analyzedUrls.url, url))`, taking
the first row as the destructuring `[existing]` does. -/
def selectByUrl (s : Store) (url : String) : Option Record :=
  s.records.find? (fun r => r.url == url)

/-- Values supplied to an `analyzed_urls` insert by the source (it always
passes url, status and both timestamps; `errorMessage` only on the failed
insert). -/
structure InsertValues where
  url : String
  status : Status
  errorMessage : Option String := none
  createdAt : String
  updatedAt : String

/-- `db.insert(analyzedUrls).values(v).returning()`.  The UNIQUE constraint on
`url` (schema.ts line 7) makes a duplicate insert throw instead of adding a
second row; otherwise the new row gets the next autoincrement id. -/
def insertRecord (s : Store) (v : InsertValues) : Except String (Store × Record) :=
  if s.records.any (fun r => r.url == v.url) then
    .error "UNIQUE constraint failed: analyzed_urls.url"
  else
    let r : Record :=
      { id := s.nextId, url := v.url, status := v.status, errorMessage := v.errorMessage,
        createdAt := v.createdAt, updatedAt := v.updatedAt }
    .ok ({ s with records := s.records ++ [r], nextId := s.nextId + 1 }, r)

/-- `db.update(analyzedUrls).set(...).where(eq(analyzedUrls.id, i))`: apply the
field update `f` to every row whose id matches. -/
def updateById (s : Store) (i : Nat) (f : Record → Record) : Store :=
  { s with records := s.records.map (fun r => if r.id = i then f r else r) }

/-- The row an update's `.returning()` destructures to (first row with the
id). -/
def returningById (s : Store) (i : Nat) : Option Record :=
  s.records.find? (fun r => r.id == i)

/-- `db.insert(contentTags).values(...)` (src/index.ts lines 190-196). -/
def insertTag (s : Store) (urlId : Nat) (tag : String) (conf : ℚ) (createdAt : String) : Store :=
  { s with
    tags := s.tags ++ [{ id := s.nextTagId, urlId := urlId, tag := tag,
                         confidence := some conf, createdAt := createdAt }],
    nextTagId := s.nextTagId + 1 }

/-- `db.delete(analyzedUrls).where(eq(analyzedUrls.id, i))` with the
`onDelete: "cascade"` of schema.ts line 28 removing the row's tags. -/
def deleteById (s : Store) (i : Nat) : Store :=
  { s with records := s.records.filter (fun r => r.id != i),
           tags := s.tags.filter (fun t => t.urlId != i) }

/-! ## The pipeline environment and effects -/

/-- An HTTP response as `analyzeUrl` consumes it (`response.ok` is derived from
the status; `statusText` and the body text are carried along). -/
structure FetchResp where
  status : Nat
  statusText : String
  body : String
deriving DecidableEq, Repr

/-- Outbound calls a run performs, in order: the page fetch, the model call,
an email delivery, a callback post. -/
inductive Effect
  | fetchCall (url : String)
  | modelCall
  | emailSend (recipient : String)
  | callbackPost (url : String)
deriving DecidableEq, Repr

/-- External collaborators as oracles: `fetch` yields a response or a thrown
transport error per url; `ai` is the model oracle of `generateSummary`; `now`
stands for the `new Date().toISOString()` timestamps of one run; `resendKey`
is the optional `RESEND_API_KEY` binding; `resend` the email provider outcome
(`.ok id` a delivery id, `.error msg` the formatted failure message). -/
structure Env where
  fetch : String → Except String FetchResp
  ai : Except Unit (Option String)
  now : String
  resendKey : Option String := none
  resend : Except String String := .error "not configured"

/-- Result of one `analyzeUrl` run: the returned record or the thrown error
message, the database afterwards, and the outbound calls made. -/
structure RunOut where
  result : Except String Record
  store : Store
  effects : List Effect

/-- Options object of `analyzeUrl` (src/index.ts line 114); absent JSON fields
are `none` and `generate_tags` is tested for truthiness. -/
structure AnalyzeOptions where
  generate_tags : Option Bool := none
  summary_length : Option String := none
deriving DecidableEq, Repr

/-! ## analyzeUrl (src/index.ts lines 114-227) -/

/-- The `.set` object of the failure commit (lines 207-213). -/
def failPatch (msg now : String) (r : Record) : Record :=
  { r with status := .failed, errorMessage := some msg, updatedAt := now }

/-- The `.set` object of the pending transition (lines 126-132). -/
def pendPatch (now : String) (r : Record) : Record :=
  { r with status := .pending, updatedAt := now, errorMessage := none }

/-- The `.set` object of the success commit (lines 172-184). -/
def succPatch (ext : Extracted) (gs : SummaryResult) (contentType now : String)
    (r : Record) : Record :=
  { r with title := some ext.title, content := some ext.content, summary := some gs.summary,
           wordCount := some ext.wordCount, analysisDate := some now, status := .completed,
           contentType := some contentType, language := some "en", updatedAt := now }

/-- The catch block (lines 202-226): with a record at hand, commit
status/errorMessage/updatedAt and rethrow; with none (the pending insert itself
threw), insert a failed row — whose own failure would replace the error. -/
def failCommit (urlRecord : Option Record) (url msg : String) (env : Env) (s : Store)
    (effs : List Effect) : RunOut :=
  match urlRecord with
  | some rec =>
    { result := .error msg, store := updateById s rec.id (failPatch msg env.now),
      effects := effs }
  | none =>
    match insertRecord s { url := url, status := .failed, errorMessage := some msg,
                           createdAt := env.now, updatedAt := env.now } with
    | .ok (s', _) => { result := .error msg, store := s', effects := effs }
    | .error e2 => { result := .error e2, store := s, effects := effs }

/-- Lines 146-200: fetch, extract, summarize, classify, commit.  `urlRecord` is
the in-memory record variable (its `.id` addresses the commits); `s` already
holds the pending transition. -/
def runPipeline (url : String) (opts : AnalyzeOptions) (env : Env) (s : Store)
    (urlRecord : Record) : RunOut :=
  match env.fetch url with
  | .error msg => failCommit (some urlRecord) url msg env s [.fetchCall url]
  | .ok resp =>
    if ¬(200 ≤ resp.status ∧ resp.status ≤ 299) then
      failCommit (some urlRecord) url
        ("HTTP " ++ toString resp.status ++ ": " ++ resp.statusText) env s [.fetchCall url]
    else
      let ext := extractContent resp.body
      if ext.content = "" ∨ ext.content.length < 50 then
        failCommit (some urlRecord) url "Insufficient content extracted from URL" env s
          [.fetchCall url]
      else
        let gs := generateSummary ext.content env.ai opts.summary_length
        let contentType :=
          if containsSubStr url "blog" then "blog"
          else if containsSubStr url "news" then "news"
          else "article"
        let s2 := updateById s urlRecord.id (succPatch ext gs contentType env.now)
        match returningById s2 urlRecord.id with
        | none =>
          -- In JS the undefined `.returning()` row would fault on `.id`; the row
          -- with `urlRecord.id` is always present here, so this branch is dead.
          { result := .error "Cannot read properties of undefined", store := s2,
            effects := [.fetchCall url, .modelCall] }
        | some updatedRecord =>
          let s3 :=
            if opts.generate_tags.getD false ∧ gs.tags ≠ [] then
              gs.tags.foldl (fun acc t => insertTag acc updatedRecord.id t (4/5) env.now) s2
            else s2
          { result := .ok updatedRecord, store := s3, effects := [.fetchCall url, .modelCall] }

/-- `analyzeUrl` (lines 114-227).  A completed record short-circuits with no
effect; any other existing record is re-entered as pending in place; a missing
record is inserted as pending; then the pipeline runs. -/
def analyzeUrl (url : String) (opts : AnalyzeOptions) (env : Env) (s : Store) : RunOut :=
  match selectByUrl s url with
  | some existing =>
    if existing.status = .completed then
      { result := .ok existing, store := s, effects := [] }
    else
      let s1 := updateById s existing.id (pendPatch env.now)
      runPipeline url opts env s1 { existing with status := .pending }
  | none =>
    match insertRecord s { url := url, status := .pending,
                           createdAt := env.now, updatedAt := env.now } with
    | .ok (s1, rec) => runPipeline url opts env s1 rec
    | .error e => failCommit none url e env s []

/-! ## Email delivery (src/index.ts lines 230-312) -/

/-- Outcome object of `sendSummaryEmail`. -/
structure EmailResult where
  success : Bool
  emailId : Option String := none
  error : Option String := none
deriving DecidableEq, Repr

/-- JavaScript `a || b` on possibly-absent strings (empty string is falsy). -/
def jsOr (o : Option String) (d : String) : String :=
  if o.getD "" = "" then d else o.getD ""

/-- `sendSummaryEmail` (lines 230-312): one outbound provider call; failures
become `{success: false, error}` and are never thrown.  The HTML body template
is not modelled — no claim concerns its contents. -/
def sendSummaryEmail (_resendApiKey recipient _subject : String) (_summary : Record)
    (_includeFullContent : Bool) (env : Env) : EmailResult × List Effect :=
  match env.resend with
  | .ok emailId => ({ success := true, emailId := some emailId }, [.emailSend recipient])
  | .error e => ({ success := false, error := some e }, [.emailSend recipient])

/-! ## Route handlers

A handler takes the parsed JSON body, the environment and the database, and
produces a status code, the response-body fields the claims inspect, the
database afterwards, and the outbound effects. -/

/-- JSON body of a POST to `/webhook/analyze` — the union of the fields the
two registrations destructure. -/
structure WebhookBody where
  url : Option String := none
  options : Option AnalyzeOptions := none
  callback_url : Option String := none
  email : Option String := none
  subject : Option String := none
  generate_tags : Option Bool := none
  summary_length : Option String := none
  include_full_content : Option Bool := none

/-- Response of a `/webhook/analyze` handler: the HTTP status plus the body
fields of interest (`none` for a field the JSON response does not carry). -/
structure HandlerOut where
  status : Nat
  analysisId : Option Nat := none
  analysisStatus : Option Status := none
  analysis : Option Record := none
  emailOutcome : Option EmailResult := none
  error : Option String := none
  message : Option String := none
  store : Store
  effects : List Effect

/-- First registration of `app.post("/webhook/analyze")` (lines 554-612).  It
destructures only `{url, options = {}, callback_url}` — the email fields of the
body are ignored and no email is ever sent.  In callback mode it inserts a
pending row without checking for an existing one, acknowledges, and the
detached continuation runs the pipeline and posts to the callback exactly
once. -/
def webhookAnalyzeFirst (b : WebhookBody) (env : Env) (s : Store) : HandlerOut :=
  if b.url.getD "" = "" then
    { status := 400, error := some "URL is required", store := s, effects := [] }
  else
    let url := b.url.getD ""
    let opts := b.options.getD {}
    match b.callback_url with
    | some cb =>
      match insertRecord s { url := url, status := .pending,
                             createdAt := env.now, updatedAt := env.now } with
      | .error e =>
        { status := 500, error := some "Analysis failed", message := some e,
          store := s, effects := [] }
      | .ok (s1, record) =>
        let bg := analyzeUrl url opts env s1
        { status := 200, analysisId := some record.id, analysisStatus := some .pending,
          message := some "Analysis started, callback will be sent when complete",
          store := bg.store, effects := bg.effects ++ [.callbackPost cb] }
    | none =>
      let run := analyzeUrl url opts env s
      match run.result with
      | .ok result =>
        { status := 200, analysisId := some result.id, analysisStatus := some result.status,
          analysis := some result, store := run.store, effects := run.effects }
      | .error e =>
        { status := 500, error := some "Analysis failed", message := some e,
          store := run.store, effects := run.effects }

/-- Second registration of `app.post("/webhook/analyze")` (lines 834-876): the
email-capable variant, reading flat `generate_tags`/`summary_length` fields and
sending the summary email when `email` is present and the provider key is
configured. -/
def webhookAnalyzeSecond (b : WebhookBody) (env : Env) (s : Store) : HandlerOut :=
  if b.url.getD "" = "" then
    { status := 400, error := some "URL is required", store := s, effects := [] }
  else
    let url := b.url.getD ""
    let run := analyzeUrl url { generate_tags := b.generate_tags,
                                summary_length := b.summary_length } env s
    match run.result with
    | .error e =>
      { status := 500, error := some "Failed to analyze URL", message := some e,
        store := run.store, effects := run.effects }
    | .ok result =>
      if b.email.getD "" ≠ "" ∧ env.resendKey.getD "" ≠ "" then
        let emailSubject := jsOr b.subject ("Analysis Summary: " ++ jsOr result.title "Untitled")
        let sent := sendSummaryEmail (env.resendKey.getD "") (b.email.getD "") emailSubject
          result (b.include_full_content.getD false) env
        { status := 200, analysis := some result, emailOutcome := some sent.1,
          store := run.store, effects := run.effects ++ sent.2 }
      else
        { status := 200, analysis := some result, store := run.store, effects := run.effects }

/-- JSON body of a POST to `/webhook/batch-analyze`. -/
structure BatchBody where
  urls : Option (List String) := none
  options : Option AnalyzeOptions := none
  callback_url : Option String := none

/-- One entry of the batch results array. -/
structure BatchItem where
  url : String
  ok : Bool
  analysisId : Option Nat := none
  error : Option String := none
deriving DecidableEq, Repr

/-- Response of the batch handler. -/
structure BatchOut where
  status : Nat
  error : Option String := none
  results : List BatchItem := []
  store : Store
  effects : List Effect

/-- One iteration of the batch loop (lines 631-642): run the pipeline,
collect success or failure, never abort the batch. -/
def batchStep (opts : AnalyzeOptions) (env : Env)
    (acc : List BatchItem × Store × List Effect) (url : String) :
    List BatchItem × Store × List Effect :=
  let run := analyzeUrl url opts env acc.2.1
  match run.result with
  | .ok r => (acc.1 ++ [{ url := url, ok := true, analysisId := some r.id }],
              run.store, acc.2.2 ++ run.effects)
  | .error e => (acc.1 ++ [{ url := url, ok := false, error := some e }],
                 run.store, acc.2.2 ++ run.effects)

/-- First registration of `app.post("/webhook/batch-analyze")` (lines
615-662): validate the array, reject more than 10 urls with a 400 before any
work, then process strictly sequentially; an optional callback receives the
aggregate. -/
def batchAnalyzeFirst (b : BatchBody) (env : Env) (s : Store) : BatchOut :=
  match b.urls with
  | none => { status := 400, error := some "URLs array is required", store := s, effects := [] }
  | some urls =>
    if urls.isEmpty then
      { status := 400, error := some "URLs array is required", store := s, effects := [] }
    else if urls.length > 10 then
      { status := 400, error := some "Maximum 10 URLs per batch", store := s, effects := [] }
    else
      let opts := b.options.getD {}
      let out := urls.foldl (batchStep opts env) ([], s, [])
      let effs :=
        match b.callback_url with
        | some cb => out.2.2 ++ [.callbackPost cb]
        | none => out.2.2
      { status := 200, results := out.1, store := out.2.1, effects := effs }

/-! ## The MCP analyze_url tool (src/index.ts lines 324-354) -/

/-- Printed form of a status value in a template literal. -/
def statusText : Status → String
  | .pending => "pending"
  | .completed => "completed"
  | .failed => "failed"

/-- Template-literal rendering of a nullable string (`null` prints as the word
null). -/
def showNullable (o : Option String) : String := o.getD "null"

/-- Content block returned by an MCP tool. -/
structure McpToolOut where
  isError : Bool
  text : String
  store : Store
  effects : List Effect

/-- The `analyze_url` tool handler (lines 325-354): its schema exposes only
`url` and `summary_length`, and it always calls the pipeline with
`generate_tags: true`. -/
def mcpAnalyzeUrlTool (url summary_length : String) (env : Env) (s : Store) : McpToolOut :=
  let run := analyzeUrl url { generate_tags := some true,
                              summary_length := some summary_length } env s
  match run.result with
  | .ok result =>
    { isError := false,
      text := "Analysis completed for: " ++ url ++ "\n\nTitle: " ++ showNullable result.title
        ++ "\nSummary: " ++ showNullable result.summary
        ++ "\nWord Count: " ++ (match result.wordCount with
                                | some n => toString n
                                | none => "null")
        ++ "\nStatus: " ++ statusText result.status,
      store := run.store, effects := run.effects }
  | .error e =>
    { isError := true, text := "Error analyzing URL: " ++ e,
      store := run.store, effects := run.effects }

/-! ## Route registrations and dispatch

Hono executes the handlers matching a request in registration order; a handler
that returns a response without awaiting `next()` ends the chain.  Every
handler in this app returns a response, so the first matching registration
serves the request and later registrations at the same method/path are
unreachable. -/

/-- HTTP methods as registered (`use` stands for middleware registration). -/
inductive Method
  | get
  | post
  | delete
  | all
  | use
deriving DecidableEq, Repr

/-- The registrations of src/index.ts, in source order. -/
def routes : List (Method × String) :=
  [(.post, "/webhook/analyze"),
   (.post, "/webhook/batch-analyze"),
   (.get, "/api/summaries"),
   (.get, "/api/search"),
   (.get, "/api/analysis/:id"),
   (.delete, "/api/analysis/:id"),
   (.get, "/api/tags"),
   (.post, "/webhook/analyze"),
   (.post, "/webhook/analyze-and-email"),
   (.post, "/webhook/batch-analyze"),
   (.all, "/mcp"),
   (.get, "/"),
   (.get, "/openapi.json"),
   (.use, "/fp/*")]

/-- Does a registration's method accept a request method? -/
def methodMatches (reg req : Method) : Bool :=
  reg == req || reg == .all

/-- `/`-separated segments of a path (the semantics of `splitOn "/"`). -/
def splitSlashAux (cur : List Char) : List Char → List (List Char)
  | [] => [cur.reverse]
  | c :: cs =>
    if c = '/' then cur.reverse :: splitSlashAux [] cs
    else splitSlashAux (c :: cur) cs

/-- Segments of a path string. -/
def pathSegs (s : String) : List (List Char) := splitSlashAux [] s.toList

/-- Segment-wise path matching: `:name` matches one segment, `*` the rest. -/
def segMatches : List (List Char) → List (List Char) → Bool
  | [], [] => true
  | p :: ps, q :: qs =>
    if p = ['*'] then true
    else
      match p with
      | ':' :: _ => segMatches ps qs
      | _ => p == q && segMatches ps qs
  | ['*'] :: _, [] => true
  | _, _ => false

/-- Path pattern matching on `/`-separated segments. -/
def pathMatches (pat path : String) : Bool :=
  segMatches (pathSegs pat) (pathSegs path)

/-- Index of the registration that serves a request: the first match. -/
def dispatch (m : Method) (path : String) : Option Nat :=
  routes.findIdx? (fun reg => methodMatches reg.1 m && pathMatches reg.2 path)

/-! ## Well-formedness and basic store lemmas -/

instance {α β : Type} [DecidableEq α] [DecidableEq β] : DecidableEq (Except α β) := fun x y =>
  match x, y with
  | .ok a, .ok b =>
    if h : a = b then isTrue (by rw [h]) else isFalse (fun hc => by cases hc; exact h rfl)
  | .error a, .error b =>
    if h : a = b then isTrue (by rw [h]) else isFalse (fun hc => by cases hc; exact h rfl)
  | .ok _, .error _ => isFalse (fun hc => by cases hc)
  | .error _, .ok _ => isFalse (fun hc => by cases hc)

/-- Database well-formedness: urls are unique (the schema's UNIQUE constraint),
ids are unique, and all ids are below the autoincrement counter. -/
def WF (s : Store) : Prop :=
  s.records.Pairwise (fun a b => a.url ≠ b.url) ∧
  s.records.Pairwise (fun a b => a.id ≠ b.id) ∧
  ∀ r ∈ s.records, r.id < s.nextId

instance (s : Store) : Decidable (WF s) := by
  unfold WF; infer_instance

/-- `find?` commutes with a map that does not change the predicate's value. -/
theorem find?_map_of_pred {α : Type} (g : α → α) (p : α → Bool)
    (h : ∀ a, p (g a) = p a) : ∀ l : List α, (l.map g).find? p = (l.find? p).map g := by
  intro l
  induction l with
  | nil => rfl
  | cons a l ih =>
    simp only [List.map_cons, List.find?_cons, h a]
    cases hpa : p a <;> simp [ih]

/-- The row patch an update applies. -/
def patchRec (i : Nat) (f : Record → Record) (r : Record) : Record :=
  if r.id = i then f r else r

theorem updateById_records (s : Store) (i : Nat) (f : Record → Record) :
    (updateById s i f).records = s.records.map (patchRec i f) := rfl

theorem patchRec_url (i : Nat) (f : Record → Record) (hf : ∀ x, (f x).url = x.url) (r : Record) :
    (patchRec i f r).url = r.url := by
  unfold patchRec; split <;> simp [hf]

theorem patchRec_id (i : Nat) (f : Record → Record) (hf : ∀ x, (f x).id = x.id) (r : Record) :
    (patchRec i f r).id = r.id := by
  unfold patchRec; split <;> simp [hf]

/-- Selecting by url after an update that keeps urls finds the patched row. -/
theorem selectByUrl_updateById (s : Store) (i : Nat) (f : Record → Record) (url : String)
    (hf : ∀ x, (f x).url = x.url) :
    selectByUrl (updateById s i f) url = (selectByUrl s url).map (patchRec i f) := by
  unfold selectByUrl
  rw [updateById_records]
  exact find?_map_of_pred _ _ (fun a => by rw [patchRec_url i f hf]) _

/-- Selecting by id after an update that keeps ids finds the patched row. -/
theorem returningById_updateById (s : Store) (i j : Nat) (f : Record → Record)
    (hf : ∀ x, (f x).id = x.id) :
    returningById (updateById s i f) j = (returningById s j).map (patchRec i f) := by
  unfold returningById
  rw [updateById_records]
  exact find?_map_of_pred _ _ (fun a => by rw [patchRec_id i f hf]) _

/-- With pairwise-distinct ids, the row found by url is also the row found by
its id. -/
theorem find?_id_of_find?_url (l : List Record) (url : String)
    (hpw : l.Pairwise (fun a b => a.id ≠ b.id)) (r : Record)
    (h : l.find? (fun x => x.url == url) = some r) :
    l.find? (fun x => x.id == r.id) = some r := by
  induction l with
  | nil => simp at h
  | cons a l ih =>
    rw [List.pairwise_cons] at hpw
    rw [List.find?_cons] at h ⊢
    cases hpa : (a.url == url) with
    | true =>
      rw [hpa] at h
      simp only at h
      cases h
      simp
    | false =>
      rw [hpa] at h
      simp only at h
      have hr := ih hpw.2 h
      have hmem := List.mem_of_find?_eq_some h
      have hne : a.id ≠ r.id := hpw.1 r hmem
      have : (a.id == r.id) = false := by simp [hne]
      rw [this]
      exact hr

theorem WF_updateById (s : Store) (i : Nat) (f : Record → Record)
    (hurl : ∀ x, (f x).url = x.url) (hid : ∀ x, (f x).id = x.id)
    (hwf : WF s) : WF (updateById s i f) := by
  obtain ⟨h1, h2, h3⟩ := hwf
  refine ⟨?_, ?_, ?_⟩
  · rw [updateById_records, List.pairwise_map]
    exact h1.imp (fun hab => by rwa [patchRec_url i f hurl, patchRec_url i f hurl])
  · rw [updateById_records, List.pairwise_map]
    exact h2.imp (fun hab => by rwa [patchRec_id i f hid, patchRec_id i f hid])
  · intro r hr
    rw [updateById_records] at hr
    obtain ⟨x, hx, rfl⟩ := List.mem_map.mp hr
    rw [patchRec_id i f hid]
    exact h3 x hx

/-- Inversion of a successful insert: the url was fresh, the row is appended
with the counter id. -/
theorem insertRecord_ok (s : Store) (v : InsertValues) (s' : Store) (rec : Record)
    (h : insertRecord s v = .ok (s', rec)) :
    (∀ r ∈ s.records, (r.url == v.url) = false) ∧
    rec = { id := s.nextId, url := v.url, status := v.status, errorMessage := v.errorMessage,
            createdAt := v.createdAt, updatedAt := v.updatedAt } ∧
    s' = { s with records := s.records ++ [rec], nextId := s.nextId + 1 } := by
  unfold insertRecord at h
  split at h
  · cases h
  · cases h
    rename_i hany
    refine ⟨?_, rfl, rfl⟩
    intro r hr
    by_contra hc
    exact hany (List.any_eq_true.mpr ⟨r, hr, by revert hc; cases (r.url == v.url) <;> simp⟩)

/-- A duplicate url makes the insert fail on the UNIQUE constraint. -/
theorem insertRecord_dup (s : Store) (v : InsertValues)
    (h : ∃ r ∈ s.records, r.url = v.url) :
    insertRecord s v = .error "UNIQUE constraint failed: analyzed_urls.url" := by
  obtain ⟨r, hr, hurl⟩ := h
  unfold insertRecord
  rw [if_pos]
  exact List.any_eq_true.mpr ⟨r, hr, by simp [hurl]⟩

theorem WF_insertRecord (s : Store) (v : InsertValues) (s' : Store) (rec : Record)
    (h : insertRecord s v = .ok (s', rec)) (hwf : WF s) : WF s' := by
  obtain ⟨hfresh, hrec, hs'⟩ := insertRecord_ok s v s' rec h
  obtain ⟨h1, h2, h3⟩ := hwf
  subst hs'
  refine ⟨?_, ?_, ?_⟩
  · rw [List.pairwise_append]
    refine ⟨h1, by simp, ?_⟩
    intro a ha b hb
    rw [List.mem_singleton] at hb
    subst hb
    have := hfresh a ha
    rw [hrec]
    intro hc
    simp [hc] at this
  · rw [List.pairwise_append]
    refine ⟨h2, by simp, ?_⟩
    intro a ha b hb
    rw [List.mem_singleton] at hb
    subst hb
    rw [hrec]
    exact Nat.ne_of_lt (h3 a ha)
  · intro r hr
    rw [List.mem_append] at hr
    rcases hr with hr | hr
    · exact Nat.lt_succ_of_lt (h3 r hr)
    · rw [List.mem_singleton] at hr
      subst hr
      rw [hrec]
      exact Nat.lt_succ_self _

/-- If lookup by url found nothing, an insert of that url succeeds. -/
theorem insertRecord_of_selectByUrl_none (s : Store) (v : InsertValues)
    (h : selectByUrl s v.url = none) :
    insertRecord s v = .ok
      ({ s with
         records := s.records ++
           [{ id := s.nextId, url := v.url, status := v.status,
              errorMessage := v.errorMessage, createdAt := v.createdAt,
              updatedAt := v.updatedAt }],
         nextId := s.nextId + 1 },
       { id := s.nextId, url := v.url, status := v.status, errorMessage := v.errorMessage,
         createdAt := v.createdAt, updatedAt := v.updatedAt }) := by
  unfold selectByUrl at h
  rw [List.find?_eq_none] at h
  unfold insertRecord
  rw [if_neg]
  intro hc
  obtain ⟨r, hr, hp⟩ := List.any_eq_true.mp hc
  exact absurd hp (by simpa using h r hr)

theorem WF_deleteById (s : Store) (i : Nat) (hwf : WF s) : WF (deleteById s i) := by
  obtain ⟨h1, h2, h3⟩ := hwf
  refine ⟨h1.sublist (List.filter_sublist _), h2.sublist (List.filter_sublist _), ?_⟩
  intro r hr
  exact h3 r (List.mem_filter.mp hr).1

/-- Folding tag inserts touches only the tags table and its counter. -/
theorem foldl_insertTag_records (l : List String) (i : Nat) (c : ℚ) (now : String) :
    ∀ s : Store,
      (l.foldl (fun acc t => insertTag acc i t c now) s).records = s.records ∧
      (l.foldl (fun acc t => insertTag acc i t c now) s).nextId = s.nextId := by
  induction l with
  | nil => intro s; exact ⟨rfl, rfl⟩
  | cons t l ih =>
    intro s
    rw [List.foldl_cons]
    exact ih (insertTag s i t c now)

/-- The observable content of a tag row. -/
def tagProj (t : TagRow) : Nat × String × Option ℚ := (t.urlId, t.tag, t.confidence)

/-- Folding tag inserts appends exactly the given tags with the fixed
confidence. -/
theorem foldl_insertTag_tags (l : List String) (i : Nat) (c : ℚ) (now : String) :
    ∀ s : Store,
      (l.foldl (fun acc t => insertTag acc i t c now) s).tags.map tagProj =
        s.tags.map tagProj ++ l.map (fun t => (i, t, some c)) := by
  induction l with
  | nil => intro s; simp
  | cons t l ih =>
    intro s
    rw [List.foldl_cons, ih]
    simp [insertTag, tagProj]

/-! ## Pipeline lemmas -/

theorem selectByUrl_eq_of_records (s t : Store) (url : String) (h : s.records = t.records) :
    selectByUrl s url = selectByUrl t url := by
  unfold selectByUrl; rw [h]

/-- A completed record short-circuits the pipeline (src/index.ts lines
119-122). -/
theorem analyzeUrl_completed (url : String) (opts : AnalyzeOptions) (env : Env) (s : Store)
    (r : Record) (hr : selectByUrl s url = some r) (hc : r.status = .completed) :
    analyzeUrl url opts env s = { result := .ok r, store := s, effects := [] } := by
  unfold analyzeUrl
  rw [hr]
  simp [hc]

/-- A found non-completed record is re-entered as pending in place. -/
theorem analyzeUrl_existing (url : String) (opts : AnalyzeOptions) (env : Env) (s : Store)
    (r : Record) (hr : selectByUrl s url = some r) (hnc : r.status ≠ .completed) :
    analyzeUrl url opts env s =
      runPipeline url opts env (updateById s r.id (pendPatch env.now))
        { r with status := .pending } := by
  unfold analyzeUrl
  rw [hr]
  simp [hnc]

/-- A missing record is inserted as pending, then the pipeline runs. -/
theorem analyzeUrl_fresh (url : String) (opts : AnalyzeOptions) (env : Env) (s : Store)
    (hr : selectByUrl s url = none) :
    analyzeUrl url opts env s =
      runPipeline url opts env
        { s with
          records := s.records ++
            [{ id := s.nextId, url := url, status := .pending,
               createdAt := env.now, updatedAt := env.now }],
          nextId := s.nextId + 1 }
        { id := s.nextId, url := url, status := .pending,
          createdAt := env.now, updatedAt := env.now } := by
  unfold analyzeUrl
  rw [hr, insertRecord_of_selectByUrl_none s _ hr]

/-- Whatever happens, the pipeline core only patches rows of the addressed id
in place (no insert, no id or url change, counter untouched). -/
theorem runPipeline_shape (url : String) (opts : AnalyzeOptions) (env : Env) (s : Store)
    (urlRecord : Record) :
    ∃ g : Record → Record, (∀ x, (g x).id = x.id) ∧ (∀ x, (g x).url = x.url) ∧
      (runPipeline url opts env s urlRecord).store.records =
        (updateById s urlRecord.id g).records ∧
      (runPipeline url opts env s urlRecord).store.nextId = s.nextId := by
  unfold runPipeline
  cases hf : env.fetch url with
  | error msg =>
    exact ⟨failPatch msg env.now, fun _ => rfl, fun _ => rfl, rfl, rfl⟩
  | ok resp =>
    dsimp only
    split
    · exact ⟨failPatch _ env.now, fun _ => rfl, fun _ => rfl, rfl, rfl⟩
    · split
      · exact ⟨failPatch _ env.now, fun _ => rfl, fun _ => rfl, rfl, rfl⟩
      · refine ⟨succPatch (extractContent resp.body)
          (generateSummary (extractContent resp.body).content env.ai opts.summary_length)
          (if containsSubStr url "blog" then "blog"
           else if containsSubStr url "news" then "news" else "article") env.now,
          fun _ => rfl, fun _ => rfl, ?_⟩
        split
        · exact ⟨rfl, rfl⟩
        · split
          · rename_i updatedRecord _ _
            constructor
            · rw [(foldl_insertTag_records _ _ _ _ _).1]
            · rw [(foldl_insertTag_records _ _ _ _ _).2]; rfl
          · exact ⟨rfl, rfl⟩

/-- With unique ids, the row select finds by url is also found by its id. -/
theorem returningById_of_select (s : Store) (url : String) (w : Record)
    (hwf : WF s) (hw : selectByUrl s url = some w) :
    returningById s w.id = some w :=
  find?_id_of_find?_url s.records url hwf.2.1 w hw

/-- On any thrown step, the store afterwards is exactly the failure commit on
the addressed row, and the only outbound call was the fetch. -/
theorem runPipeline_err (url : String) (opts : AnalyzeOptions) (env : Env) (s : Store)
    (urlRecord w : Record) (hwf : WF s) (hw : selectByUrl s url = some w)
    (hid : urlRecord.id = w.id) :
    ∀ msg, (runPipeline url opts env s urlRecord).result = .error msg →
      (runPipeline url opts env s urlRecord).store =
        updateById s urlRecord.id (failPatch msg env.now) ∧
      (runPipeline url opts env s urlRecord).effects = [.fetchCall url] := by
  intro msg hm
  unfold runPipeline at hm ⊢
  cases hf : env.fetch url with
  | error m =>
    rw [hf] at hm
    simp only [failCommit] at hm
    cases hm
    exact ⟨rfl, rfl⟩
  | ok resp =>
    rw [hf] at hm
    dsimp only at hm ⊢
    by_cases hok : ¬(200 ≤ resp.status ∧ resp.status ≤ 299)
    · rw [if_pos hok] at hm ⊢
      simp only [failCommit] at hm
      cases hm
      exact ⟨rfl, rfl⟩
    · rw [if_neg hok] at hm ⊢
      by_cases hshort : (extractContent resp.body).content = "" ∨
          (extractContent resp.body).content.length < 50
      · rw [if_pos hshort] at hm ⊢
        simp only [failCommit] at hm
        cases hm
        exact ⟨rfl, rfl⟩
      · rw [if_neg hshort] at hm ⊢
        generalize hE : extractContent resp.body = E at hm ⊢
        generalize hG : generateSummary E.content env.ai opts.summary_length = G at hm ⊢
        generalize hC : (if containsSubStr url "blog" then "blog"
          else if containsSubStr url "news" then "news" else "article") = CT at hm ⊢
        have hret : returningById (updateById s urlRecord.id (succPatch E G CT env.now))
            urlRecord.id = some (succPatch E G CT env.now w) := by
          rw [returningById_updateById s urlRecord.id urlRecord.id
            (succPatch E G CT env.now) (fun _ => rfl), hid,
            returningById_of_select s url w hwf hw]
          rw [Option.map_some']
          unfold patchRec
          rw [if_pos rfl]
        rw [hret] at hm
        dsimp only at hm
        cases hm

/-- A successful run commits the success patch on the addressed row, leaves
every other row and the record counter alone, appends exactly the parsed tags
(only when requested) with confidence 0.8, and made one fetch and one model
call. -/
theorem runPipeline_ok (url : String) (opts : AnalyzeOptions) (env : Env) (s : Store)
    (urlRecord w : Record) (resp : FetchResp)
    (hwf : WF s) (hw : selectByUrl s url = some w) (hid : urlRecord.id = w.id)
    (hresp : env.fetch url = .ok resp)
    (h2xx : 200 ≤ resp.status ∧ resp.status ≤ 299)
    (hcontent : ¬((extractContent resp.body).content = "" ∨
      (extractContent resp.body).content.length < 50)) :
    (runPipeline url opts env s urlRecord).result =
      .ok (succPatch (extractContent resp.body)
        (generateSummary (extractContent resp.body).content env.ai opts.summary_length)
        (if containsSubStr url "blog" then "blog"
         else if containsSubStr url "news" then "news" else "article") env.now w) ∧
    (runPipeline url opts env s urlRecord).store.records =
      (updateById s urlRecord.id
        (succPatch (extractContent resp.body)
          (generateSummary (extractContent resp.body).content env.ai opts.summary_length)
          (if containsSubStr url "blog" then "blog"
           else if containsSubStr url "news" then "news" else "article") env.now)).records ∧
    (runPipeline url opts env s urlRecord).store.nextId = s.nextId ∧
    (runPipeline url opts env s urlRecord).store.tags.map tagProj =
      s.tags.map tagProj ++
        (if opts.generate_tags.getD false then
          (generateSummary (extractContent resp.body).content env.ai opts.summary_length).tags
         else []).map (fun t => (w.id, t, some (4/5 : ℚ))) ∧
    (runPipeline url opts env s urlRecord).effects = [.fetchCall url, .modelCall] := by
  unfold runPipeline
  rw [hresp]
  dsimp only
  rw [if_neg (not_not_intro h2xx), if_neg hcontent]
  generalize hE : extractContent resp.body = E
  generalize hG : generateSummary E.content env.ai opts.summary_length = G
  generalize hC : (if containsSubStr url "blog" then "blog"
    else if containsSubStr url "news" then "news" else "article") = CT
  have hret : returningById (updateById s urlRecord.id (succPatch E G CT env.now))
      urlRecord.id = some (succPatch E G CT env.now w) := by
    rw [returningById_updateById s urlRecord.id urlRecord.id
      (succPatch E G CT env.now) (fun _ => rfl), hid,
      returningById_of_select s url w hwf hw]
    rw [Option.map_some']
    unfold patchRec
    rw [if_pos rfl]
  rw [hret]
  dsimp only
  by_cases hguard : opts.generate_tags.getD false = true ∧ G.tags ≠ []
  · rw [if_pos hguard]
    refine ⟨rfl, ?_, ?_, ?_, rfl⟩
    · rw [(foldl_insertTag_records _ _ _ _ _).1]
    · rw [(foldl_insertTag_records _ _ _ _ _).2]; rfl
    · rw [foldl_insertTag_tags, if_pos hguard.1]
      rfl
  · rw [if_neg hguard]
    refine ⟨rfl, rfl, rfl, ?_, rfl⟩
    rcases not_and_or.mp hguard with hg | ht
    · have hfalse : opts.generate_tags.getD false = false := by
        revert hg; cases opts.generate_tags.getD false <;> simp
      rw [hfalse]
      simp [updateById]
    · have ht' : G.tags = [] := by
        revert ht; by_cases h : G.tags = [] <;> simp [h]
      rw [ht']
      simp [updateById]

/-- Transfer of select through a records characterization. -/
theorem select_of_records_map (s : Store) (i : Nat) (f : Record → Record) (url : String)
    (t : Store) (h : t.records = (updateById s i f).records)
    (hf : ∀ x, (f x).url = x.url) :
    selectByUrl t url = (selectByUrl s url).map (patchRec i f) := by
  rw [selectByUrl_eq_of_records t (updateById s i f) url h,
    selectByUrl_updateById s i f url hf]

/-- Well-formedness only inspects records and the record counter. -/
theorem WF_of_same (s t : Store) (hr : t.records = s.records) (hn : t.nextId = s.nextId)
    (hwf : WF s) : WF t := by
  unfold WF at hwf ⊢
  rw [hr, hn]
  exact hwf

/-- A returned record can only come from a good fetch with enough extracted
content. -/
theorem runPipeline_ok_inv (url : String) (opts : AnalyzeOptions) (env : Env) (s : Store)
    (urlRecord : Record) :
    ∀ rec, (runPipeline url opts env s urlRecord).result = .ok rec →
      ∃ resp, env.fetch url = .ok resp ∧ (200 ≤ resp.status ∧ resp.status ≤ 299) ∧
        ¬((extractContent resp.body).content = "" ∨
          (extractContent resp.body).content.length < 50) := by
  intro rec hm
  unfold runPipeline at hm
  cases hf : env.fetch url with
  | error m =>
    rw [hf] at hm
    simp only [failCommit] at hm
    cases hm
  | ok resp =>
    rw [hf] at hm
    dsimp only at hm
    by_cases hok : ¬(200 ≤ resp.status ∧ resp.status ≤ 299)
    · rw [if_pos hok] at hm
      simp only [failCommit] at hm
      cases hm
    · rw [if_neg hok] at hm
      by_cases hshort : (extractContent resp.body).content = "" ∨
          (extractContent resp.body).content.length < 50
      · rw [if_pos hshort] at hm
        simp only [failCommit] at hm
        cases hm
      · exact ⟨resp, rfl, not_not.mp hok, hshort⟩

/-- The first pending insert is appended at the end and found by select. -/
theorem selectByUrl_append_single (s : Store) (url : String) (rec : Record)
    (hn : selectByUrl s url = none) (hu : rec.url = url) (t : Store)
    (ht : t.records = s.records ++ [rec]) :
    selectByUrl t url = some rec := by
  unfold selectByUrl at hn ⊢
  rw [ht, List.find?_append, hn]
  simp [hu]

/-- Pipeline invariant preservation. -/
theorem WF_runPipeline (url : String) (opts : AnalyzeOptions) (env : Env) (s : Store)
    (urlRecord : Record) (hwf : WF s) :
    WF (runPipeline url opts env s urlRecord).store := by
  obtain ⟨g, hgid, hgurl, hrec, hnext⟩ := runPipeline_shape url opts env s urlRecord
  exact WF_of_same (updateById s urlRecord.id g) _ hrec hnext
    (WF_updateById s urlRecord.id g hgurl hgid hwf)

/-- Orchestrator invariant preservation. -/
theorem WF_analyzeUrl (url : String) (opts : AnalyzeOptions) (env : Env) (s : Store)
    (hwf : WF s) : WF (analyzeUrl url opts env s).store := by
  cases hsel : selectByUrl s url with
  | some r =>
    by_cases hc : r.status = .completed
    · rw [analyzeUrl_completed url opts env s r hsel hc]
      exact hwf
    · rw [analyzeUrl_existing url opts env s r hsel hc]
      exact WF_runPipeline url opts env _ _
        (WF_updateById s r.id (pendPatch env.now) (fun _ => rfl) (fun _ => rfl) hwf)
  | none =>
    rw [analyzeUrl_fresh url opts env s hsel]
    exact WF_runPipeline url opts env _ _
      (WF_insertRecord s
        { url := url, status := .pending, createdAt := env.now, updatedAt := env.now } _ _
        (insertRecord_of_selectByUrl_none s _ hsel) hwf)

/-- Select after the pending transition finds the pending row. -/
theorem select_after_pend (s : Store) (url : String) (r : Record) (env : Env)
    (hsel : selectByUrl s url = some r) :
    selectByUrl (updateById s r.id (pendPatch env.now)) url = some (pendPatch env.now r) := by
  rw [selectByUrl_updateById s r.id (pendPatch env.now) url (fun _ => rfl), hsel,
    Option.map_some']
  unfold patchRec
  rw [if_pos rfl]

/-- A record returned by a run is stored, completed, under the run's url. -/
theorem analyzeUrl_ok (url : String) (opts : AnalyzeOptions) (env : Env) (s : Store)
    (hwf : WF s) :
    ∀ rec, (analyzeUrl url opts env s).result = .ok rec →
      selectByUrl (analyzeUrl url opts env s).store url = some rec ∧
      rec.status = .completed := by
  intro rec hm
  cases hsel : selectByUrl s url with
  | some r =>
    by_cases hc : r.status = .completed
    · rw [analyzeUrl_completed url opts env s r hsel hc] at hm ⊢
      cases hm
      exact ⟨hsel, hc⟩
    · rw [analyzeUrl_existing url opts env s r hsel hc] at hm ⊢
      have hwf1 : WF (updateById s r.id (pendPatch env.now)) :=
        WF_updateById s r.id (pendPatch env.now) (fun _ => rfl) (fun _ => rfl) hwf
      have hw1 := select_after_pend s url r env hsel
      have hid1 : ({ r with status := Status.pending } : Record).id =
        (pendPatch env.now r).id := rfl
      obtain ⟨resp, hresp, h2xx, hcontent⟩ :=
        runPipeline_ok_inv url opts env _ _ rec hm
      obtain ⟨hres, hrecords, _, _, _⟩ :=
        runPipeline_ok url opts env _ _ _ resp hwf1 hw1 hid1 hresp h2xx hcontent
      rw [hres] at hm
      cases hm
      refine ⟨?_, rfl⟩
      rw [select_of_records_map (updateById s r.id (pendPatch env.now))
        ({ r with status := Status.pending } : Record).id _ url _ hrecords (fun _ => rfl),
        hw1, Option.map_some']
      unfold patchRec
      have hcond : (pendPatch env.now r).id =
          ({ r with status := Status.pending } : Record).id := rfl
      rw [if_pos hcond]
  | none =>
    rw [analyzeUrl_fresh url opts env s hsel] at hm ⊢
    have hins := insertRecord_of_selectByUrl_none s
      { url := url, status := .pending, createdAt := env.now, updatedAt := env.now } hsel
    have hwf1 : WF { s with
        records := s.records ++
          [{ id := s.nextId, url := url, status := .pending,
             createdAt := env.now, updatedAt := env.now }],
        nextId := s.nextId + 1 } :=
      WF_insertRecord s _ _ _ hins hwf
    have hw1 : selectByUrl { s with
        records := s.records ++
          [{ id := s.nextId, url := url, status := .pending,
             createdAt := env.now, updatedAt := env.now }],
        nextId := s.nextId + 1 } url = some
          { id := s.nextId, url := url, status := .pending,
            createdAt := env.now, updatedAt := env.now } :=
      selectByUrl_append_single s url _ hsel rfl _ rfl
    obtain ⟨resp, hresp, h2xx, hcontent⟩ := runPipeline_ok_inv url opts env _ _ rec hm
    obtain ⟨hres, hrecords, _, _, _⟩ :=
      runPipeline_ok url opts env _ _ _ resp hwf1 hw1 rfl hresp h2xx hcontent
    rw [hres] at hm
    cases hm
    refine ⟨?_, rfl⟩
    rw [select_of_records_map _ _ _ url _ hrecords (fun _ => rfl), hw1, Option.map_some']
    unfold patchRec
    rw [if_pos rfl]

/-- Is an effect an email delivery? -/
def isEmailSend : Effect → Bool
  | .emailSend _ => true
  | _ => false

/-- The pipeline core performs the fetch, and the model call iff it got that
far — never an email or callback. -/
theorem runPipeline_effects (url : String) (opts : AnalyzeOptions) (env : Env) (s : Store)
    (urlRecord : Record) :
    (runPipeline url opts env s urlRecord).effects = [.fetchCall url] ∨
    (runPipeline url opts env s urlRecord).effects = [.fetchCall url, .modelCall] := by
  unfold runPipeline
  cases env.fetch url with
  | error m => left; rfl
  | ok resp =>
    dsimp only
    split
    · left; rfl
    · split
      · left; rfl
      · split
        · right; rfl
        · right; rfl

/-- A pipeline run never sends email. -/
theorem analyzeUrl_no_email (url : String) (opts : AnalyzeOptions) (env : Env) (s : Store) :
    (analyzeUrl url opts env s).effects.filter isEmailSend = [] := by
  cases hsel : selectByUrl s url with
  | some r =>
    by_cases hc : r.status = .completed
    · rw [analyzeUrl_completed url opts env s r hsel hc]
      rfl
    · rw [analyzeUrl_existing url opts env s r hsel hc]
      rcases runPipeline_effects url opts env _ _ with h | h <;> rw [h] <;> rfl
  | none =>
    rw [analyzeUrl_fresh url opts env s hsel]
    rcases runPipeline_effects url opts env _ _ with h | h <;> rw [h] <;> rfl

/-- Two updates addressing the same id compose. -/
theorem updateById_updateById (s : Store) (i : Nat) (f g : Record → Record)
    (hfid : ∀ x, (f x).id = x.id) :
    updateById (updateById s i f) i g = updateById s i (fun r => g (f r)) := by
  unfold updateById
  simp only [List.map_map]
  congr 1
  apply List.map_congr_left
  intro r _
  by_cases h : r.id = i
  · simp [Function.comp, h, hfid r]
  · simp [Function.comp, h]

/-- The failure commit overwrites exactly the fields the pending transition
touched, so the two collapse. -/
theorem failPatch_pendPatch (msg now : String) (r : Record) :
    failPatch msg now (pendPatch now r) = failPatch msg now r := rfl

/-- The values of a pending insert (src/index.ts lines 135-141 and 567-574). -/
def pendingInsert (url now : String) : InsertValues :=
  { url := url, status := .pending, createdAt := now, updatedAt := now }

/-- A patch addressed at an id absent from the rows changes nothing. -/
theorem map_patchRec_eq_self (l : List Record) (i : Nat) (f : Record → Record)
    (h : ∀ x ∈ l, x.id ≠ i) : l.map (patchRec i f) = l := by
  induction l with
  | nil => rfl
  | cons a l ih =>
    simp only [List.map_cons]
    rw [ih (fun x hx => h x (List.mem_cons_of_mem a hx))]
    unfold patchRec
    rw [if_neg (h a (List.mem_cons_self a l))]

/-- Reduction of the pipeline on the insufficient-content path. -/
theorem runPipeline_short (url : String) (opts : AnalyzeOptions) (env : Env) (s : Store)
    (urlRecord : Record) (resp : FetchResp)
    (hresp : env.fetch url = .ok resp)
    (h2xx : 200 ≤ resp.status ∧ resp.status ≤ 299)
    (hshort : (extractContent resp.body).content = "" ∨
      (extractContent resp.body).content.length < 50) :
    runPipeline url opts env s urlRecord =
      { result := .error "Insufficient content extracted from URL",
        store := updateById s urlRecord.id
          (failPatch "Insufficient content extracted from URL" env.now),
        effects := [.fetchCall url] } := by
  unfold runPipeline
  rw [hresp]
  dsimp only
  rw [if_neg (not_not_intro h2xx), if_pos hshort]
  rfl

/-- The summarizer never yields more than five tags. -/
theorem generateSummary_tags_le5 (content : String) (ai : Except Unit (Option String))
    (summaryLength : Option String) :
    (generateSummary content ai summaryLength).tags.length ≤ 5 := by
  unfold generateSummary
  cases ai with
  | error e => simp
  | ok respField =>
    dsimp only
    rw [List.length_map]
    exact List.length_take_le 5 _

/-- Truthiness of `matches && matches[0]` in the pattern loop. -/
def truthyMatch (o : Option (List Char)) : Option (List Char) :=
  match o with
  | some m => if m.isEmpty then none else some m
  | none => none

/-! ## Reachable store states

The only mutation sites in src/index.ts are `analyzeUrl` (all of its writes),
the unchecked pending insert of the callback mode of the first
`/webhook/analyze` registration (lines 567-574; a throwing insert is caught
and surfaces as a 500 with the store unchanged), and the delete route (line
788).  Every route and tool handler composes these. -/

inductive Step : Store → Store → Prop
  | analyze (url : String) (opts : AnalyzeOptions) (env : Env) (s : Store) :
      Step s (analyzeUrl url opts env s).store
  | callbackInsert (url : String) (env : Env) (s : Store) :
      Step s (match insertRecord s (pendingInsert url env.now) with
              | .ok (s', _) => s'
              | .error _ => s)
  | deleteStep (i : Nat) (s : Store) : Step s (deleteById s i)

/-- States reachable from the empty database. -/
def Reachable (s : Store) : Prop := Relation.ReflTransGen Step store0 s

theorem WF_store0 : WF store0 := by
  refine ⟨List.Pairwise.nil, List.Pairwise.nil, ?_⟩
  intro r hr
  simp [store0] at hr

theorem WF_step (s s' : Store) (h : Step s s') (hwf : WF s) : WF s' := by
  cases h with
  | analyze url opts env s => exact WF_analyzeUrl url opts env s hwf
  | callbackInsert url env s =>
    cases hi : insertRecord s (pendingInsert url env.now) with
    | ok p =>
      obtain ⟨s1, rec⟩ := p
      dsimp only
      exact WF_insertRecord s _ s1 rec hi hwf
    | error e =>
      dsimp only
      exact hwf
  | deleteStep i s => exact WF_deleteById s i hwf

theorem WF_reachable (s : Store) (h : Reachable s) : WF s := by
  induction h with
  | refl => exact WF_store0
  | tail _ hstep ih => exact WF_step _ _ hstep ih

/-- Select after a failure commit finds the failed row. -/
theorem select_after_fail (s : Store) (url : String) (w : Record) (i : Nat) (msg now : String)
    (hw : selectByUrl s url = some w) (hid : w.id = i) :
    selectByUrl (updateById s i (failPatch msg now)) url = some (failPatch msg now w) := by
  rw [selectByUrl_updateById s i (failPatch msg now) url (fun _ => rfl), hw, Option.map_some']
  unfold patchRec
  rw [if_pos hid]

/-- Common success characterization of a fresh (non-cached) run: the record
comes back completed, carrying the summarizer's output, and exactly the parsed
tags are appended (when requested) with confidence 0.8 under the record's
id. -/
theorem analyzeUrl_success (url : String) (opts : AnalyzeOptions) (env : Env) (s : Store)
    (resp : FetchResp) (hwf : WF s)
    (hfresh : ∀ r, selectByUrl s url = some r → r.status ≠ .completed)
    (hresp : env.fetch url = .ok resp)
    (h2xx : 200 ≤ resp.status ∧ resp.status ≤ 299)
    (hlong : ¬((extractContent resp.body).content = "" ∨
      (extractContent resp.body).content.length < 50)) :
    ∃ rec, (analyzeUrl url opts env s).result = .ok rec ∧
      rec.status = .completed ∧
      rec.summary = some (generateSummary (extractContent resp.body).content env.ai
        opts.summary_length).summary ∧
      (analyzeUrl url opts env s).store.tags.map tagProj =
        s.tags.map tagProj ++
          (if opts.generate_tags.getD false then
            (generateSummary (extractContent resp.body).content env.ai
              opts.summary_length).tags
           else []).map (fun t => (rec.id, t, some (4/5 : ℚ))) := by
  cases hsel : selectByUrl s url with
  | some r =>
    have hnc := hfresh r hsel
    rw [analyzeUrl_existing url opts env s r hsel hnc]
    have hwf1 : WF (updateById s r.id (pendPatch env.now)) :=
      WF_updateById s r.id (pendPatch env.now) (fun _ => rfl) (fun _ => rfl) hwf
    have hw1 := select_after_pend s url r env hsel
    obtain ⟨hres, _, _, htags, _⟩ :=
      runPipeline_ok url opts env _ _ _ resp hwf1 hw1 rfl hresp h2xx hlong
    exact ⟨_, hres, rfl, rfl, htags⟩
  | none =>
    rw [analyzeUrl_fresh url opts env s hsel]
    have hwf1 : WF { s with
        records := s.records ++
          [{ id := s.nextId, url := url, status := .pending,
             createdAt := env.now, updatedAt := env.now }],
        nextId := s.nextId + 1 } :=
      WF_insertRecord s
        { url := url, status := .pending, createdAt := env.now, updatedAt := env.now } _ _
        (insertRecord_of_selectByUrl_none s
          { url := url, status := .pending, createdAt := env.now, updatedAt := env.now }
          hsel) hwf
    have hw1 : selectByUrl { s with
        records := s.records ++
          [{ id := s.nextId, url := url, status := .pending,
             createdAt := env.now, updatedAt := env.now }],
        nextId := s.nextId + 1 } url = some
          { id := s.nextId, url := url, status := .pending,
            createdAt := env.now, updatedAt := env.now } :=
      selectByUrl_append_single s url _ hsel rfl _ rfl
    obtain ⟨hres, _, _, htags, _⟩ :=
      runPipeline_ok url opts env _ _ _ resp hwf1 hw1 rfl hresp h2xx hlong
    exact ⟨_, hres, rfl, rfl, htags⟩

/-! ## Concrete material for witnesses and counterexamples -/

set_option maxRecDepth 100000

/-- A small page whose extracted content is comfortably over 50 characters. -/
def sampleHtml : String :=
  "<html><title>T</title><body><p>Hello world this is a sufficiently long test paragraph for extraction</p></body></html>"

/-- A fixed run timestamp. -/
def sampleNow : String := "2026-01-01T00:00:00Z"

/-- A stored completed record. -/
def wRecC1 : Record :=
  { id := 1, url := "https://w.example/a", title := some "T", content := some "C",
    summary := some "S", wordCount := some 1, analysisDate := some "2025-12-31T00:00:00Z",
    status := .completed, errorMessage := none, contentType := some "article",
    language := some "en", createdAt := "2025-12-31T00:00:00Z",
    updatedAt := "2025-12-31T00:00:00Z" }

/-- A database holding exactly that completed record. -/
def wStoreC1 : Store := { records := [wRecC1], tags := [], nextId := 2, nextTagId := 1 }

/-- An environment with a good fetch and a working model. -/
def wEnv : Env :=
  { fetch := fun _ => .ok { status := 200, statusText := "OK", body := sampleHtml },
    ai := .ok (some "SUMMARY: Nice.\nTAGS: a, b"), now := sampleNow }

/-! ## The claims -/

/-- C1: for a URL whose stored record is completed, analyze returns that
record immediately for any options, with the store untouched and no outbound
fetch or model call; consequently a second analyze call after any successful
first call returns the identical record (summary, content and tags included,
since the whole store is unchanged) with zero additional outbound calls. -/
theorem claim_C1 (url : String) (opts : AnalyzeOptions) (env : Env) (s : Store)
    (hwf : WF s) :
    (∀ r, selectByUrl s url = some r → r.status = .completed →
      (analyzeUrl url opts env s).result = .ok r ∧
      (analyzeUrl url opts env s).store = s ∧
      (analyzeUrl url opts env s).effects = []) ∧
    (∀ opts' env' rec, (analyzeUrl url opts' env' s).result = .ok rec →
      (analyzeUrl url opts env (analyzeUrl url opts' env' s).store).result = .ok rec ∧
      (analyzeUrl url opts env (analyzeUrl url opts' env' s).store).store =
        (analyzeUrl url opts' env' s).store ∧
      (analyzeUrl url opts env (analyzeUrl url opts' env' s).store).effects = []) := by
  constructor
  · intro r hr hc
    rw [analyzeUrl_completed url opts env s r hr hc]
    exact ⟨rfl, rfl, rfl⟩
  · intro opts' env' rec hm
    obtain ⟨hsel, hcomp⟩ := analyzeUrl_ok url opts' env' s hwf rec hm
    rw [analyzeUrl_completed url opts env _ rec hsel hcomp]
    exact ⟨rfl, rfl, rfl⟩

/-- Witness for C1 at a concrete completed record. -/
theorem claim_C1_witness :
    (analyzeUrl "https://w.example/a" {} wEnv wStoreC1).result = .ok wRecC1 ∧
    (analyzeUrl "https://w.example/a" {} wEnv wStoreC1).store = wStoreC1 ∧
    (analyzeUrl "https://w.example/a" {} wEnv wStoreC1).effects = [] :=
  (claim_C1 "https://w.example/a" {} wEnv wStoreC1 (by decide)).1 wRecC1 (by decide) (by decide)

/-- C9: for a URL whose stored record is completed, analyzeUrl performs no
store mutation at all — the entire database (every record field, updatedAt
included, and the tag table) is unchanged, for any options. -/
theorem claim_C9 (url : String) (opts : AnalyzeOptions) (env : Env) (s : Store) (r : Record)
    (hr : selectByUrl s url = some r) (hc : r.status = .completed) :
    (analyzeUrl url opts env s).store = s := by
  rw [analyzeUrl_completed url opts env s r hr hc]

/-- Witness for C9. -/
theorem claim_C9_witness :
    (analyzeUrl "https://w.example/a" { generate_tags := some true } wEnv wStoreC1).store =
      wStoreC1 :=
  claim_C9 "https://w.example/a" { generate_tags := some true } wEnv wStoreC1 wRecC1
    (by decide) (by decide)

/-- C2: when the fetched page's extracted content is shorter than 50
characters (empty included) and the run is not served from the completed
cache, analyze fails with the insufficient-content error and the record for
that URL ends with status failed and that error message. -/
theorem claim_C2 (url : String) (opts : AnalyzeOptions) (env : Env) (s : Store)
    (resp : FetchResp) (hwf : WF s)
    (hfresh : ∀ r, selectByUrl s url = some r → r.status ≠ .completed)
    (hresp : env.fetch url = .ok resp)
    (h2xx : 200 ≤ resp.status ∧ resp.status ≤ 299)
    (hshort : (extractContent resp.body).content.length < 50) :
    (analyzeUrl url opts env s).result = .error "Insufficient content extracted from URL" ∧
    ∃ r', selectByUrl (analyzeUrl url opts env s).store url = some r' ∧
      r'.status = .failed ∧
      r'.errorMessage = some "Insufficient content extracted from URL" := by
  cases hsel : selectByUrl s url with
  | some r =>
    have hnc := hfresh r hsel
    rw [analyzeUrl_existing url opts env s r hsel hnc,
      runPipeline_short url opts env _ _ resp hresp h2xx (Or.inr hshort)]
    refine ⟨rfl, failPatch "Insufficient content extracted from URL" env.now
      (pendPatch env.now r), ?_, rfl, rfl⟩
    exact select_after_fail _ url (pendPatch env.now r) _ _ env.now
      (select_after_pend s url r env hsel) rfl
  | none =>
    rw [analyzeUrl_fresh url opts env s hsel,
      runPipeline_short url opts env _ _ resp hresp h2xx (Or.inr hshort)]
    refine ⟨rfl, failPatch "Insufficient content extracted from URL" env.now
      { id := s.nextId, url := url, status := .pending,
        createdAt := env.now, updatedAt := env.now }, ?_, rfl, rfl⟩
    exact select_after_fail _ url _ _ _ env.now
      (selectByUrl_append_single s url _ hsel rfl _ rfl) rfl

/-- A page whose extracted content is under 50 characters. -/
def shortHtml : String := "<html><body>tiny</body></html>"

/-- Environment fetching the short page. -/
def wEnvShort : Env :=
  { fetch := fun _ => .ok { status := 200, statusText := "OK", body := shortHtml },
    ai := .ok (some "SUMMARY: Nice.\nTAGS: a"), now := sampleNow }

/-- Witness for C2 on a fresh URL serving the short page. -/
theorem claim_C2_witness :
    (analyzeUrl "https://w.example/c2" {} wEnvShort store0).result =
      .error "Insufficient content extracted from URL" ∧
    ∃ r', selectByUrl (analyzeUrl "https://w.example/c2" {} wEnvShort store0).store
        "https://w.example/c2" = some r' ∧
      r'.status = .failed ∧
      r'.errorMessage = some "Insufficient content extracted from URL" :=
  claim_C2 "https://w.example/c2" {} wEnvShort store0
    { status := 200, statusText := "OK", body := shortHtml }
    (by decide) (fun _ h => nomatch h) rfl (by decide) (by decide)

/-- C3: a thrown model call degrades to a successful summary — the 300
character truncation of the content with an ellipsis marker when longer,
the content itself otherwise, with no tags — it never propagates, and the
analysis still commits with status completed (never failed), storing that
degraded summary and no tag rows. -/
theorem claim_C3 (url : String) (opts : AnalyzeOptions) (env : Env) (s : Store)
    (resp : FetchResp) (hwf : WF s)
    (hfresh : ∀ r, selectByUrl s url = some r → r.status ≠ .completed)
    (hresp : env.fetch url = .ok resp)
    (h2xx : 200 ≤ resp.status ∧ resp.status ≤ 299)
    (hlong : ¬((extractContent resp.body).content = "" ∨
      (extractContent resp.body).content.length < 50))
    (hai : env.ai = .error ()) :
    generateSummary (extractContent resp.body).content env.ai opts.summary_length =
      { summary :=
          if (extractContent resp.body).content.length > 300 then
            String.mk ((extractContent resp.body).content.toList.take 300) ++ "..."
          else (extractContent resp.body).content,
        tags := [] } ∧
    ∃ rec, (analyzeUrl url opts env s).result = .ok rec ∧
      rec.status = .completed ∧
      rec.summary = some (generateSummary (extractContent resp.body).content env.ai
        opts.summary_length).summary ∧
      (analyzeUrl url opts env s).store.tags.map tagProj = s.tags.map tagProj := by
  have hfall : generateSummary (extractContent resp.body).content env.ai
      opts.summary_length =
      { summary :=
          if (extractContent resp.body).content.length > 300 then
            String.mk ((extractContent resp.body).content.toList.take 300) ++ "..."
          else (extractContent resp.body).content,
        tags := [] } := by
    rw [hai]
    rfl
  obtain ⟨rec, hres, hstat, hsum, htags⟩ :=
    analyzeUrl_success url opts env s resp hwf hfresh hresp h2xx hlong
  refine ⟨hfall, rec, hres, hstat, hsum, ?_⟩
  rw [htags, hfall]
  simp

/-- Environment whose model call throws. -/
def wEnvAiFail : Env :=
  { fetch := fun _ => .ok { status := 200, statusText := "OK", body := sampleHtml },
    ai := .error (), now := sampleNow }

/-- Witness for C3 on a fresh URL with a failing model. -/
theorem claim_C3_witness :
    ∃ rec, (analyzeUrl "https://w.example/c3" {} wEnvAiFail store0).result = .ok rec ∧
      rec.status = .completed ∧
      rec.summary = some (generateSummary (extractContent sampleHtml).content
        wEnvAiFail.ai none).summary ∧
      (analyzeUrl "https://w.example/c3" {} wEnvAiFail store0).store.tags.map tagProj =
        store0.tags.map tagProj :=
  (claim_C3 "https://w.example/c3" {} wEnvAiFail store0
    { status := 200, statusText := "OK", body := sampleHtml }
    (by decide) (fun _ h => nomatch h) rfl (by decide) (by decide) rfl).2

/-- An update addressed at a freshly appended row patches only that row. -/
theorem updateById_append_fresh (s : Store) (rec : Record) (f : Record → Record)
    (hb : ∀ x ∈ s.records, x.id ≠ rec.id) :
    updateById { s with records := s.records ++ [rec], nextId := s.nextId + 1 } rec.id f =
      { s with records := s.records ++ [f rec], nextId := s.nextId + 1 } := by
  unfold updateById
  dsimp only
  congr 1
  show (s.records ++ [rec]).map (patchRec rec.id f) = s.records ++ [f rec]
  rw [List.map_append, map_patchRec_eq_self s.records rec.id f hb]
  simp [patchRec]

/-- C4: a fatal step failure commits exactly status = failed, the error
message, and updatedAt on the run's record and re-raises the same message:
with a pre-existing record the post-state is the pre-state with only that
patch applied to that row (title, content, summary, wordCount, contentType and
every other field keep their prior values; tags and counters untouched); with
no prior record the post-state only gains the new row, failed, with that
message. -/
theorem claim_C4 (url : String) (opts : AnalyzeOptions) (env : Env) (s : Store)
    (hwf : WF s) :
    (∀ r msg, selectByUrl s url = some r →
      (analyzeUrl url opts env s).result = .error msg →
      (analyzeUrl url opts env s).store = updateById s r.id (failPatch msg env.now)) ∧
    (∀ msg, selectByUrl s url = none →
      (analyzeUrl url opts env s).result = .error msg →
      (analyzeUrl url opts env s).store =
        { s with
          records := s.records ++
            [{ id := s.nextId, url := url, status := .failed, errorMessage := some msg,
               createdAt := env.now, updatedAt := env.now }],
          nextId := s.nextId + 1 }) := by
  constructor
  · intro r msg hsel herr
    by_cases hc : r.status = .completed
    · rw [analyzeUrl_completed url opts env s r hsel hc] at herr
      simp at herr
    · rw [analyzeUrl_existing url opts env s r hsel hc] at herr ⊢
      have hwf1 : WF (updateById s r.id (pendPatch env.now)) :=
        WF_updateById s r.id (pendPatch env.now) (fun _ => rfl) (fun _ => rfl) hwf
      have hw1 := select_after_pend s url r env hsel
      obtain ⟨hstore, _⟩ :=
        runPipeline_err url opts env (updateById s r.id (pendPatch env.now))
          { r with status := .pending } (pendPatch env.now r) hwf1 hw1 rfl msg herr
      rw [hstore]
      have hidr : ({ r with status := Status.pending } : Record).id = r.id := rfl
      rw [hidr, updateById_updateById s r.id (pendPatch env.now) (failPatch msg env.now)
        (fun _ => rfl)]
      have hcollapse : (fun x => failPatch msg env.now (pendPatch env.now x)) =
          failPatch msg env.now :=
        funext (fun x => failPatch_pendPatch msg env.now x)
      rw [hcollapse]
  · intro msg hsel herr
    rw [analyzeUrl_fresh url opts env s hsel] at herr ⊢
    have hwf1 : WF { s with
        records := s.records ++
          [{ id := s.nextId, url := url, status := .pending,
             createdAt := env.now, updatedAt := env.now }],
        nextId := s.nextId + 1 } :=
      WF_insertRecord s
        { url := url, status := .pending, createdAt := env.now, updatedAt := env.now } _ _
        (insertRecord_of_selectByUrl_none s
          { url := url, status := .pending, createdAt := env.now, updatedAt := env.now }
          hsel) hwf
    have hw1 : selectByUrl { s with
        records := s.records ++
          [{ id := s.nextId, url := url, status := .pending,
             createdAt := env.now, updatedAt := env.now }],
        nextId := s.nextId + 1 } url = some
          { id := s.nextId, url := url, status := .pending,
            createdAt := env.now, updatedAt := env.now } :=
      selectByUrl_append_single s url _ hsel rfl _ rfl
    obtain ⟨hstore, _⟩ :=
      runPipeline_err url opts env
        { s with
          records := s.records ++
            [{ id := s.nextId, url := url, status := .pending,
               createdAt := env.now, updatedAt := env.now }],
          nextId := s.nextId + 1 }
        { id := s.nextId, url := url, status := .pending,
          createdAt := env.now, updatedAt := env.now }
        { id := s.nextId, url := url, status := .pending,
          createdAt := env.now, updatedAt := env.now }
        hwf1 hw1 rfl msg herr
    rw [hstore, updateById_append_fresh s
      { id := s.nextId, url := url, status := .pending,
        createdAt := env.now, updatedAt := env.now }
      (failPatch msg env.now) (fun x hx => Nat.ne_of_lt (hwf.2.2 x hx))]
    rfl

/-- A previously failed record carrying values from earlier states. -/
def wRecC4 : Record :=
  { id := 1, url := "https://w.example/c4", title := some "OldTitle",
    content := some "Old content body", summary := some "Old summary",
    wordCount := some 3, analysisDate := some "2025-12-30T00:00:00Z", status := .failed,
    errorMessage := some "old error", contentType := some "article", language := some "en",
    createdAt := "2025-12-30T00:00:00Z", updatedAt := "2025-12-30T00:00:00Z" }

/-- Database with that record. -/
def wStoreC4 : Store := { records := [wRecC4], tags := [], nextId := 2, nextTagId := 1 }

/-- Environment whose fetch throws. -/
def wEnvFetchFail : Env :=
  { fetch := fun _ => .error "fetch failed", ai := .error (), now := sampleNow }

/-- Witness for C4: a re-analysis that fails only rewrites
status/errorMessage/updatedAt, keeping the prior title, content, summary. -/
theorem claim_C4_witness :
    (analyzeUrl "https://w.example/c4" {} wEnvFetchFail wStoreC4).store =
      updateById wStoreC4 wRecC4.id (failPatch "fetch failed" wEnvFetchFail.now) :=
  (claim_C4 "https://w.example/c4" {} wEnvFetchFail wStoreC4 (by decide)).1 wRecC4
    "fetch failed" (by decide) (by decide)

/-- C7: at every reachable store state, at most one record exists per distinct
url; a duplicate insert is rejected by the UNIQUE constraint rather than
creating a second row; and re-analysis of an already-recorded URL mutates the
existing record in place — the row count is unchanged and the record found for
that url afterwards keeps its id. -/
theorem claim_C7 :
    (∀ s, Reachable s → s.records.Pairwise (fun a b => a.url ≠ b.url)) ∧
    (∀ s (v : InsertValues), (∃ r ∈ s.records, r.url = v.url) →
      insertRecord s v = .error "UNIQUE constraint failed: analyzed_urls.url") ∧
    (∀ url opts env s r, WF s → selectByUrl s url = some r →
      (analyzeUrl url opts env s).store.records.length = s.records.length ∧
      ∃ rr, selectByUrl (analyzeUrl url opts env s).store url = some rr ∧
        rr.id = r.id) := by
  refine ⟨?_, ?_, ?_⟩
  · intro s h
    exact (WF_reachable s h).1
  · intro s v h
    exact insertRecord_dup s v h
  · intro url opts env s r hwf hsel
    by_cases hc : r.status = .completed
    · rw [analyzeUrl_completed url opts env s r hsel hc]
      exact ⟨rfl, r, hsel, rfl⟩
    · rw [analyzeUrl_existing url opts env s r hsel hc]
      obtain ⟨g, hgid, hgurl, hrec, hnext⟩ := runPipeline_shape url opts env
        (updateById s r.id (pendPatch env.now)) { r with status := .pending }
      constructor
      · rw [hrec, updateById_records, List.length_map, updateById_records, List.length_map]
      · have hsel2 := select_of_records_map (updateById s r.id (pendPatch env.now))
          ({ r with status := Status.pending } : Record).id g url _ hrec hgurl
        rw [select_after_pend s url r env hsel, Option.map_some'] at hsel2
        exact ⟨_, hsel2, patchRec_id _ g hgid _⟩

/-- Witness for C7: the duplicate insert is rejected and re-analysis keeps the
row count. -/
theorem claim_C7_witness :
    store0.records.Pairwise (fun a b => a.url ≠ b.url) ∧
    insertRecord wStoreC1
      { url := "https://w.example/a", status := .pending,
        createdAt := sampleNow, updatedAt := sampleNow } =
      .error "UNIQUE constraint failed: analyzed_urls.url" ∧
    (analyzeUrl "https://w.example/a" {} wEnv wStoreC1).store.records.length =
      wStoreC1.records.length :=
  ⟨claim_C7.1 store0 Relation.ReflTransGen.refl,
   claim_C7.2.1 wStoreC1 _ ⟨wRecC1, by decide, by decide⟩,
   (claim_C7.2.2 "https://w.example/a" {} wEnv wStoreC1 wRecC1 (by decide) (by decide)).1⟩

/-- C8: a batch body with more than 10 urls is answered 400 with the batch
ceiling error by the serving (first-registered) handler, before any pipeline
work: the store is untouched and no outbound call — in particular no fetch —
is made for any listed URL. -/
theorem claim_C8 (urls : List String) (o : Option AnalyzeOptions) (cb : Option String)
    (env : Env) (s : Store) (h : urls.length > 10) :
    dispatch .post "/webhook/batch-analyze" = some 1 ∧
    batchAnalyzeFirst { urls := some urls, options := o, callback_url := cb } env s =
      { status := 400, error := some "Maximum 10 URLs per batch", results := [],
        store := s, effects := [] } := by
  constructor
  · decide
  · unfold batchAnalyzeFirst
    dsimp only
    have hne : urls.isEmpty = false := by
      cases urls with
      | nil => simp at h
      | cons a l => rfl
    rw [if_neg (by simp [hne]), if_pos h]

/-- Eleven URLs. -/
def urls11 : List String := List.replicate 11 "https://w.example/b"

/-- Witness for C8. -/
theorem claim_C8_witness :
    dispatch .post "/webhook/batch-analyze" = some 1 ∧
    batchAnalyzeFirst { urls := some urls11 } wEnv store0 =
      { status := 400, error := some "Maximum 10 URLs per batch", results := [],
        store := store0, effects := [] } :=
  claim_C8 urls11 none none wEnv store0 (by decide)

/-- C10: the MCP analyze_url tool forwards to the pipeline with generate_tags
fixed to true (its schema exposes only url and summary_length), so a fresh
successful analysis through it stores exactly the parsed tags — at most five,
each with confidence 0.8 — attached to the analysis record. -/
theorem claim_C10 (url len : String) (env : Env) (s : Store) (resp : FetchResp)
    (hwf : WF s)
    (hfresh : ∀ r, selectByUrl s url = some r → r.status ≠ .completed)
    (hresp : env.fetch url = .ok resp)
    (h2xx : 200 ≤ resp.status ∧ resp.status ≤ 299)
    (hlong : ¬((extractContent resp.body).content = "" ∨
      (extractContent resp.body).content.length < 50)) :
    (mcpAnalyzeUrlTool url len env s).store =
      (analyzeUrl url { generate_tags := some true, summary_length := some len } env s).store ∧
    (mcpAnalyzeUrlTool url len env s).isError = false ∧
    ∃ rec, (analyzeUrl url { generate_tags := some true, summary_length := some len }
        env s).result = .ok rec ∧
      (analyzeUrl url { generate_tags := some true, summary_length := some len }
          env s).store.tags.map tagProj =
        s.tags.map tagProj ++
          (generateSummary (extractContent resp.body).content env.ai (some len)).tags.map
            (fun t => (rec.id, t, some (4/5 : ℚ))) ∧
      (generateSummary (extractContent resp.body).content env.ai (some len)).tags.length ≤
        5 := by
  obtain ⟨rec, hres, _, _, htags⟩ :=
    analyzeUrl_success url { generate_tags := some true, summary_length := some len }
      env s resp hwf hfresh hresp h2xx hlong
  have hcond : ({ generate_tags := some true, summary_length := some len } :
      AnalyzeOptions).generate_tags.getD false = true := rfl
  rw [if_pos hcond] at htags
  refine ⟨?_, ?_, rec, hres, htags, generateSummary_tags_le5 _ _ _⟩
  · simp only [mcpAnalyzeUrlTool, hres]
  · simp only [mcpAnalyzeUrlTool, hres]

/-- Witness for C10 on a fresh URL with a model returning two tags. -/
theorem claim_C10_witness :
    (mcpAnalyzeUrlTool "https://w.example/c10" "short" wEnv store0).isError = false ∧
    ∃ rec, (analyzeUrl "https://w.example/c10"
        { generate_tags := some true, summary_length := some "short" }
        wEnv store0).result = .ok rec ∧
      (analyzeUrl "https://w.example/c10"
          { generate_tags := some true, summary_length := some "short" }
          wEnv store0).store.tags.map tagProj =
        store0.tags.map tagProj ++
          (generateSummary (extractContent sampleHtml).content wEnv.ai
            (some "short")).tags.map (fun t => (rec.id, t, some (4/5 : ℚ))) ∧
      (generateSummary (extractContent sampleHtml).content wEnv.ai
        (some "short")).tags.length ≤ 5 :=
  ⟨(claim_C10 "https://w.example/c10" "short" wEnv store0
      { status := 200, statusText := "OK", body := sampleHtml }
      (by decide) (fun _ h => nomatch h) rfl (by decide) (by decide)).2.1,
   (claim_C10 "https://w.example/c10" "short" wEnv store0
      { status := 200, statusText := "OK", body := sampleHtml }
      (by decide) (fun _ h => nomatch h) rfl (by decide) (by decide)).2.2⟩

/-- A `/webhook/analyze` body carrying an email address. -/
def c5Body : WebhookBody :=
  { url := some "https://w.example/c5", email := some "dev@example.com" }

/-- Environment with the email provider key configured and delivery
succeeding. -/
def c5Env : Env :=
  { fetch := fun _ => .ok { status := 200, statusText := "OK", body := sampleHtml },
    ai := .ok (some "SUMMARY: Nice.\nTAGS: a, b"), now := sampleNow,
    resendKey := some "re_key", resend := .ok "email-1" }

/-- C5 counterexample: POST /webhook/analyze dispatches to the first
registration (index 0), which on a body with an email address and the provider
key configured sends no email and returns no delivery outcome — while the
later, shadowed registration would have emailed and reported the outcome. -/
theorem claim_C5_counterexample :
    dispatch .post "/webhook/analyze" = some 0 ∧
    (webhookAnalyzeFirst c5Body c5Env store0).status = 200 ∧
    (webhookAnalyzeFirst c5Body c5Env store0).emailOutcome = none ∧
    (webhookAnalyzeFirst c5Body c5Env store0).effects.filter isEmailSend = [] ∧
    (webhookAnalyzeSecond c5Body c5Env store0).emailOutcome =
      some { success := true, emailId := some "email-1" } := by
  refine ⟨by decide, by decide, by decide, by decide, by decide⟩

/-- C5 amended: every POST to /webhook/analyze is served by the first
registered handler, which ignores the email fields entirely: no email is ever
sent and the response carries no delivery outcome, whatever the body, key and
store. -/
theorem claim_C5_amended (b : WebhookBody) (env : Env) (s : Store) :
    dispatch .post "/webhook/analyze" = some 0 ∧
    (webhookAnalyzeFirst b env s).emailOutcome = none ∧
    (webhookAnalyzeFirst b env s).effects.filter isEmailSend = [] := by
  refine ⟨by decide, ?_, ?_⟩
  · unfold webhookAnalyzeFirst
    split
    · rfl
    · dsimp only
      split
      · split
        · rfl
        · rfl
      · split
        · rfl
        · rfl
  · unfold webhookAnalyzeFirst
    split
    · rfl
    · dsimp only
      split
      · split
        · rfl
        · dsimp only
          rw [List.filter_append, analyzeUrl_no_email]
          rfl
      · split
        · exact analyzeUrl_no_email _ _ _ _
        · exact analyzeUrl_no_email _ _ _ _

/-- The markup of the C6 counterexample: a non-div element carries the
content class, and a body element follows. -/
def c6Html : String := "<span class=\"content\">Alpha</span><body>Beta</body>"

/-- C6 counterexample: on markup whose only content-classed element is not a
div, the extractor skips it (its class patterns only match div elements) and
falls through to the body pattern, while the spec's any-element reading picks
the classed element; the two extractions disagree. -/
theorem claim_C6_counterexample :
    (extractContent c6Html).content = "Beta" ∧
    (extractContentSpec c6Html).content = "Alpha" ∧
    extractContent c6Html ≠ extractContentSpec c6Html := by
  refine ⟨by decide, by decide, by decide⟩

/-- C6 amended: region selection tries, in priority order, article, main, a
div element whose double-quoted class attribute contains content, a div
element whose class contains post, and body, taking the first pattern with a
non-empty match and falling back to the whole script/style-stripped document
when none matches. -/
theorem claim_C6_amended (cleanHtml : List Char) :
    selectedRegion cleanHtml =
      (((((truthyMatch (matchTagBlock "article".toList cleanHtml)).or
          (truthyMatch (matchTagBlock "main".toList cleanHtml))).or
          (truthyMatch (matchDivClass "content".toList cleanHtml))).or
          (truthyMatch (matchDivClass "post".toList cleanHtml))).or
          (truthyMatch (matchTagBlock "body".toList cleanHtml))).getD cleanHtml := by
  unfold selectedRegion contentMatchers pickFirst truthyMatch
  rcases matchTagBlock "article".toList cleanHtml with _ | m1 <;>
    rcases matchTagBlock "main".toList cleanHtml with _ | m2 <;>
      rcases matchDivClass "content".toList cleanHtml with _ | m3 <;>
        rcases matchDivClass "post".toList cleanHtml with _ | m4 <;>
          rcases matchTagBlock "body".toList cleanHtml with _ | m5 <;>
            dsimp only <;> split_ifs <;> simp_all [Option.or, pickFirst]

end ArticleSummarizer
